import Mathlib

/-!
Verification development for the m17rt M17 radio stack (crates `m17core` and
`m17app`).  Rust byte buffers are modelled as `List Nat` with each element a
byte value below 256; machine integers are `Nat` with explicit masking where
the Rust code relies on wrapping or truncation.  Functions that can panic in
Rust are modelled as `Option`-returning functions, with `none` marking the
panic.  Each definition is a direct translation of the correspondingly named
item in the Rust sources.
-/

set_option maxRecDepth 100000

namespace M17

/-- The KISS frame delimiter byte `FEND = 0xC0` from `kiss.rs`. -/
def FEND : Nat := 192

/-- The KISS escape byte `FESC = 0xDB` from `kiss.rs`. -/
def FESC : Nat := 219

/-- `TFEND = 0xDC` from `kiss.rs`. -/
def TFEND : Nat := 220

/-- `TFESC = 0xDD` from `kiss.rs`. -/
def TFESC : Nat := 221

/-- `bits.rs` `BitsBase::get_bit`: MSB-first bit `idx` of a byte buffer. -/
def getBit (bytes : List Nat) (idx : Nat) : Nat :=
  (bytes.getD (idx / 8) 0 >>> (7 - idx % 8)) &&& 1

/-- `bits.rs` `BitsMut::set_bit`: set or clear MSB-first bit `idx` of a byte buffer. -/
def setBit (bytes : List Nat) (idx : Nat) (value : Nat) : List Nat :=
  let existing := bytes.getD (idx / 8) 0
  let b :=
    if value = 0 then existing &&& (255 ^^^ (1 <<< (7 - idx % 8)))
    else existing ||| (1 <<< (7 - idx % 8))
  bytes.set (idx / 8) b

/-- One shift step of the CRC-16 with polynomial 0x5935 (MSB first, as
configured by `M17_ALG` in `crc.rs`: `refin = refout = false`). -/
def crcShift (crc : Nat) : Nat :=
  if crc &&& 32768 ≠ 0 then ((crc <<< 1) ^^^ 0x5935) &&& 65535
  else (crc <<< 1) &&& 65535

/-- Feed one byte into the CRC-16 state (MSB-first table-free form of the
algorithm described by `M17_ALG` in `crc.rs`). -/
def crcFeed (crc b : Nat) : Nat :=
  crcShift (crcShift (crcShift (crcShift
    (crcShift (crcShift (crcShift (crcShift (crc ^^^ ((b &&& 255) <<< 8)))))))))

/-- `crc.rs` `m17_crc`: CRC-16, poly 0x5935, init 0xFFFF, no reflection, no xorout. -/
def m17Crc (input : List Nat) : Nat :=
  input.foldl crcFeed 0xFFFF

/-- `protocol.rs` `LsfFrame::lsf_type`: big-endian u16 from frame bytes 12 and 13. -/
def lsfType (f : List Nat) : Nat :=
  f.getD 12 0 * 256 + f.getD 13 0

/-- `protocol.rs` `LsfFrame::channel_access_number`: bits 7..10 of the TYPE field. -/
def channelAccessNumber (f : List Nat) : Nat :=
  (lsfType f >>> 7) &&& 0x000f

/-- `protocol.rs` `LsfFrame::check_crc`: CRC of the whole 30-byte frame (zero means valid). -/
def checkCrc (f : List Nat) : Nat :=
  m17Crc f

/-- `protocol.rs` `LsfFrame::recalculate_crc`: CRC over bytes 0..28 written into bytes 28..30. -/
def recalculateCrc (f : List Nat) : List Nat :=
  let newCrc := m17Crc (f.take 28)
  (f.set 28 (newCrc >>> 8)).set 29 (newCrc &&& 255)

/-- `protocol.rs` `LsfFrame::set_channel_access_number`: write the four CAN bits
(byte 12 bits 5..7 and byte 13 bit 0, MSB-first indices) and refresh the CRC. -/
def setChannelAccessNumber (f : List Nat) (number : Nat) : List Nat :=
  recalculateCrc
    (setBit (setBit (setBit (setBit f (12 * 8 + 5) ((number >>> 3) &&& 1))
      (12 * 8 + 6) ((number >>> 2) &&& 1))
      (12 * 8 + 7) ((number >>> 1) &&& 1))
      (13 * 8) (number &&& 1))

/-! Normal form of the four `set_bit` calls inside `set_channel_access_number`:
byte 12 has its three low bits (MSB-first bits 5..7) overwritten with the high
three bits of `number`, and byte 13 has its top bit overwritten with the low
bit of `number`. -/

/-- Value of LSF byte 12 after `set_channel_access_number`'s three `set_bit` calls. -/
def byte12WithCan (b n : Nat) : Nat :=
  let x1 := if (n >>> 3) &&& 1 = 0 then b &&& 251 else b ||| 4
  let x2 := if (n >>> 2) &&& 1 = 0 then x1 &&& 253 else x1 ||| 2
  if (n >>> 1) &&& 1 = 0 then x2 &&& 254 else x2 ||| 1

/-- Value of LSF byte 13 after `set_channel_access_number`'s fourth `set_bit` call. -/
def byte13WithCan (b n : Nat) : Nat :=
  if n &&& 1 = 0 then b &&& 127 else b ||| 128

/-! ## Protocol data types (`protocol.rs`) -/

/-- `protocol.rs` `Mode`. -/
inductive Mode
  | packet
  | stream
deriving DecidableEq

/-- `protocol.rs` `LsfFrame::mode`: bit 0 of the TYPE field selects Stream. -/
def lsfMode (f : List Nat) : Mode :=
  if lsfType f &&& 0x0001 > 0 then .stream else .packet

/-- `protocol.rs` `StreamFrame`. -/
structure StreamFrame where
  lichIdx : Nat
  lichPart : List Nat
  frameNumber : Nat
  endOfStream : Bool
  streamData : List Nat
deriving DecidableEq

/-- The derived `Default` of `StreamFrame` in Rust: all fields zeroed. -/
def StreamFrame.zero : StreamFrame :=
  ⟨0, List.replicate 5 0, 0, false, List.replicate 16 0⟩

/-- `protocol.rs` `PacketFrameCounter`. -/
inductive PacketFrameCounter
  | frame (index : Nat)
  | finalFrame (payloadLen : Nat)
deriving DecidableEq

/-- `protocol.rs` `PacketFrame`: 25 payload bytes plus a counter. -/
structure PacketFrame where
  payload : List Nat
  counter : PacketFrameCounter
deriving DecidableEq

/-- `protocol.rs` `Frame`. -/
inductive Frame
  | lsf (lsf : List Nat)
  | stream (s : StreamFrame)
  | packet (p : PacketFrame)
deriving DecidableEq

/-- `protocol.rs` `LichCollection::new`: six empty slots. -/
def lichNew : List (Option (List Nat)) := List.replicate 6 none

/-- `protocol.rs` `LichCollection::set_segment`.  The Rust code indexes a 6-slot
array with `counter`, so a counter of 6 or more panics; `none` marks the panic. -/
def lichSetSegment (l : List (Option (List Nat))) (counter : Nat) (part : List Nat) :
    Option (List (Option (List Nat))) :=
  if counter < 6 then some (l.set counter (some part)) else none

/-- `protocol.rs` `LichCollection::try_assemble`: concatenate the six 5-byte
segments once all of them are present. -/
def lichTryAssemble (l : List (Option (List Nat))) : Option (List Nat) :=
  if l.all Option.isSome then some ((l.map (fun s => s.getD [])).flatten) else none

/-! ## KISS frame construction (`kiss.rs`) -/

/-- `kiss.rs` `escape`: FEND and FESC bytes are replaced by two-byte escape
sequences.  The destination buffer (1713 bytes in Rust) is never exhausted by
the frames the TNC builds, so the model needs no truncation. -/
def escape : List Nat → List Nat
  | [] => []
  | b :: rest =>
    (if b = FEND then [FESC, TFEND] else if b = FESC then [FESC, TFESC] else [b]) ++ escape rest

/-- `kiss.rs` `kiss_header`: `(port << 4) | (command & 0x0f)`. -/
def kissHeader (port command : Nat) : Nat :=
  (port <<< 4) ||| (command &&& 0x0f)

/-- `kiss.rs` `KissFrame::new_stream_setup` (for a 30-byte LSF, which is the
only way the TNC calls it): FEND, header for port 2 command DATA, escaped LSF, FEND. -/
def newStreamSetup (lsf : List Nat) : List Nat :=
  [FEND, kissHeader 2 0] ++ escape lsf ++ [FEND]

/-- `kiss.rs` `KissFrame::new_full_packet`: returns `none` exactly when the Rust
constructor returns an error (`LsfWrongSize` or `PayloadTooBig`). -/
def newFullPacket (lsf pkt : List Nat) : Option (List Nat) :=
  if lsf.length ≠ 30 then none
  else if pkt.length > 825 then none
  else some ([FEND, kissHeader 1 0] ++ escape lsf ++ escape pkt ++ [FEND])

/-- `kiss.rs` `KissFrame::new_stream_data`: LICH part, LICH metadata byte,
then frame number/EOS, 16 payload bytes and a CRC over those 18 bytes. -/
def newStreamData (s : StreamFrame) : List Nat :=
  let innerData :=
    [((s.frameNumber >>> 8) &&& 255) ||| (if s.endOfStream then 0x80 else 0),
      s.frameNumber &&& 255] ++ s.streamData
  let crc := m17Crc innerData
  [FEND, kissHeader 2 0] ++ escape s.lichPart ++ escape [(s.lichIdx <<< 5) &&& 255] ++
    escape (innerData ++ [crc >>> 8, crc &&& 255]) ++ [FEND]

/-! ## The TNC state machine (`tnc.rs`) -/

/-- `tnc.rs` `RxStreamState`. -/
structure RxStreamState where
  lsf : List Nat
  index : Nat
deriving DecidableEq

/-- `tnc.rs` `RxPacketState`. -/
structure RxPacketState where
  lsf : List Nat
  packet : List Nat
  count : Nat
deriving DecidableEq

/-- `tnc.rs` `State`. -/
inductive TncState
  | idle
  | rxAcquiringStream (lich : List (Option (List Nat)))
  | rxStream (rx : RxStreamState)
  | rxPacket (rx : RxPacketState)
  | txStream
  | txStreamSentEndOfStream
  | txPacket
  | txEnding
  | txEndingAtTime (t : Nat)
deriving DecidableEq

/-- `tnc.rs` `PendingPacket`. -/
structure PendingPacket where
  lsf : Option (List Nat)
  appData : List Nat
  appDataLen : Nat
  appDataTransmitted : Nat
deriving DecidableEq

/-- `tnc.rs` `PendingPacket::new` (and the identical derived `Default`). -/
def PendingPacket.new : PendingPacket :=
  ⟨none, List.replicate 825 0, 0, 0⟩

/-- `modem.rs` `ModulatorFrame`. -/
inductive ModulatorFrame
  | preamble (txDelay : Nat)
  | lsf (lsf : List Nat)
  | stream (s : StreamFrame)
  | packet (p : PacketFrame)
  | endOfTransmission
deriving DecidableEq

/-- `tnc.rs` `SoftTnc`, with `outgoing_kiss` flattened to a pair of the frame
bytes and the `sent` cursor.  The host-input `kiss_buffer` member is modelled
separately (see `KissBuf` below) because `handle_frame`, `read_kiss` and
`read_tx_frame` never consult it. -/
structure SoftTnc where
  outgoingKiss : Option (List Nat × Nat)
  state : TncState
  dcd : Bool
  nextCsmaCheck : Option Nat
  now : Nat
  packetQueue : List PendingPacket
  packetNext : Nat
  packetCurr : Nat
  packetFull : Bool
  streamPendingLsf : Option (List Nat)
  streamQueue : List StreamFrame
  streamNext : Nat
  streamCurr : Nat
  streamFull : Bool
  ptt : Bool
  txDelay : Nat
  fullDuplex : Bool
deriving DecidableEq

/-- `tnc.rs` `SoftTnc::new`. -/
def SoftTnc.new : SoftTnc where
  outgoingKiss := none
  state := .idle
  dcd := false
  nextCsmaCheck := none
  now := 0
  packetQueue := List.replicate 4 PendingPacket.new
  packetNext := 0
  packetCurr := 0
  packetFull := false
  streamPendingLsf := none
  streamQueue := List.replicate 8 StreamFrame.zero
  streamNext := 0
  streamCurr := 0
  streamFull := false
  ptt := false
  txDelay := 0
  fullDuplex := false

/-- Rust `dst[start..start+src.len()].copy_from_slice(src)` on a list, assuming
the caller has checked `start + src.length ≤ dst.length` (as `handle_frame`'s
panic guards do before this is used). -/
def copyInto (dst : List Nat) (start : Nat) (src : List Nat) : List Nat :=
  dst.take start ++ src ++ dst.drop (start + src.length)

/-- `tnc.rs` `SoftTnc::kiss_to_host`: unconditionally replace the single
outgoing KISS slot. -/
def kissToHost (tnc : SoftTnc) (k : List Nat) : SoftTnc :=
  { tnc with outgoingKiss := some (k, 0) }

/-- `tnc.rs` `SoftTnc::handle_frame`.  Returns `none` exactly where the Rust
code panics: the out-of-bounds packet-reassembly slices in the
`FinalFrame` arm, and `LichCollection::set_segment` with a LICH counter
above 5. -/
def handleFrame (tnc : SoftTnc) (frame : Frame) : Option SoftTnc :=
  if tnc.ptt then some tnc
  else
    match frame with
    | .lsf lsf =>
      match lsfMode lsf with
      | .packet => some { tnc with state := .rxPacket ⟨lsf, List.replicate 825 0, 0⟩ }
      | .stream =>
        some { kissToHost tnc (newStreamSetup lsf) with state := .rxStream ⟨lsf, 0⟩ }
    | .packet p =>
      match tnc.state with
      | .rxPacket rx =>
        match p.counter with
        | .frame index =>
          if index = rx.count ∧ index < 32 then
            some { tnc with
              state := .rxPacket ⟨rx.lsf, copyInto rx.packet (25 * index) p.payload,
                rx.count + 1⟩ }
          else
            some { tnc with state := .idle }
        | .finalFrame payloadLen =>
          if payloadLen ≤ 25 ∧ 25 * rx.count + payloadLen ≤ 825 then
            let newPkt := copyInto rx.packet (25 * rx.count) (p.payload.take payloadLen)
            match newFullPacket rx.lsf (newPkt.take (25 * rx.count + payloadLen)) with
            | some kiss => some { kissToHost tnc kiss with state := .idle }
            | none => none
          else none
      | _ => some { tnc with state := .idle }
    | .stream s =>
      match tnc.state with
      | .rxStream rx =>
        if s.frameNumber < rx.index then
          match lichSetSegment lichNew s.lichIdx s.lichPart with
          | some lich => some { tnc with state := .rxAcquiringStream lich }
          | none => none
        else
          some { kissToHost tnc (newStreamData s) with
            state := if s.endOfStream then .idle
              else .rxStream ⟨rx.lsf, s.frameNumber + 1⟩ }
      | .rxAcquiringStream lich =>
        match lichSetSegment lich s.lichIdx s.lichPart with
        | none => none
        | some lich2 =>
          match lichTryAssemble lich2 with
          | some maybeLsf =>
            if checkCrc maybeLsf = 0 then
              some { kissToHost { tnc with state := .rxAcquiringStream lich2 }
                  (newStreamSetup maybeLsf) with
                state := .rxStream ⟨maybeLsf, s.frameNumber + 1⟩ }
            else some { tnc with state := .rxAcquiringStream lich2 }
          | none => some { tnc with state := .rxAcquiringStream lich2 }
      | _ =>
        match lichSetSegment lichNew s.lichIdx s.lichPart with
        | some lich => some { tnc with state := .rxAcquiringStream lich }
        | none => none

/-- `tnc.rs` `SoftTnc::set_data_carrier_detect`. -/
def setDataCarrierDetect (tnc : SoftTnc) (dcd : Bool) : SoftTnc :=
  { tnc with dcd := dcd }

/-- `tnc.rs` `SoftTnc::set_now`. -/
def setNow (tnc : SoftTnc) (nowSamples : Nat) : SoftTnc :=
  let t := { tnc with now := nowSamples }
  match t.state with
  | .txEndingAtTime time =>
    if nowSamples ≥ time then { t with ptt := false, state := .idle } else t
  | _ => t

/-- `tnc.rs` `SoftTnc::read_kiss`, returning the bytes copied into the host
buffer (of capacity `bufLen`) alongside the updated TNC. -/
def readKiss (tnc : SoftTnc) (bufLen : Nat) : SoftTnc × List Nat :=
  match tnc.outgoingKiss with
  | some (k, sent) =>
    let n := min (k.length - sent) bufLen
    ({ tnc with
        outgoingKiss := if sent + n = k.length then none else some (k, sent + n) },
      (k.drop sent).take n)
  | none => (tnc, [])

/-- `tnc.rs` `PendingPacket::next_frame`. -/
def pendingNextFrame (p : PendingPacket) : PendingPacket × Option ModulatorFrame :=
  match p.lsf with
  | some l => ({ p with lsf := none }, some (.lsf l))
  | none =>
    if p.appDataLen = p.appDataTransmitted then (p, none)
    else
      let remaining := p.appDataLen - p.appDataTransmitted
      let cd : PacketFrameCounter × Nat :=
        if remaining ≤ 25 then (.finalFrame remaining, remaining)
        else (.frame (p.appDataTransmitted / 25), 25)
      let payload := (p.appData.drop p.appDataTransmitted).take cd.2 ++
        List.replicate (25 - cd.2) 0
      ({ p with appDataTransmitted := p.appDataTransmitted + cd.2 },
        some (.packet ⟨payload, cd.1⟩))

/-- The `while packet_next != packet_curr` loop of `read_tx_frame`'s `TxPacket`
arm.  `packet_curr` advances modulo 4 on every `None`, so four steps of fuel
always suffice; the fuel-exhausted case replays the loop's exit arm. -/
def txPacketLoop : SoftTnc → Nat → SoftTnc × Option ModulatorFrame
  | tnc, 0 => ({ tnc with state := .txEnding }, some .endOfTransmission)
  | tnc, fuel + 1 =>
    if tnc.packetNext ≠ tnc.packetCurr then
      let pm := pendingNextFrame (tnc.packetQueue.getD tnc.packetCurr PendingPacket.new)
      let tnc1 := { tnc with packetQueue := tnc.packetQueue.set tnc.packetCurr pm.1 }
      match pm.2 with
      | some f => (tnc1, some f)
      | none => txPacketLoop { tnc1 with packetCurr := (tnc1.packetCurr + 1) % 4 } fuel
    else ({ tnc with state := .txEnding }, some .endOfTransmission)

/-- The "admitted to transmit" tail of `read_tx_frame`'s idle/receive arm:
set PTT, move to the TX state and emit a preamble. -/
def proceedTx (tnc : SoftTnc) (streamWantsToTx : Bool) : SoftTnc × Option ModulatorFrame :=
  ({ tnc with state := if streamWantsToTx then .txStream else .txPacket, ptt := true },
    some (.preamble tnc.txDelay))

/-- `tnc.rs` `SoftTnc::read_tx_frame`. -/
def readTxFrame (tnc : SoftTnc) : SoftTnc × Option ModulatorFrame :=
  match tnc.state with
  | .idle | .rxAcquiringStream _ | .rxStream _ | .rxPacket _ =>
    let streamWantsToTx := tnc.streamPendingLsf.isSome
    let packetWantsToTx := tnc.packetFull || decide (tnc.packetNext ≠ tnc.packetCurr)
    if !streamWantsToTx && !packetWantsToTx then (tnc, none)
    else if tnc.fullDuplex then proceedTx tnc streamWantsToTx
    else
      match tnc.nextCsmaCheck with
      | none =>
        if tnc.dcd then ({ tnc with nextCsmaCheck := some (tnc.now + 1920) }, none)
        else proceedTx tnc streamWantsToTx
      | some atTime =>
        if tnc.now < atTime then (tnc, none)
        else if ¬tnc.dcd ∨ ¬(tnc.now &&& 3 = 3) then
          ({ tnc with nextCsmaCheck := some (tnc.now + 1920) }, none)
        else proceedTx { tnc with nextCsmaCheck := none } streamWantsToTx
  | .txStream =>
    if ¬tnc.streamFull ∧ tnc.streamNext = tnc.streamCurr then (tnc, none)
    else
      match tnc.streamPendingLsf with
      | some lsf => ({ tnc with streamPendingLsf := none }, some (.lsf lsf))
      | none =>
        let frame := tnc.streamQueue.getD tnc.streamCurr StreamFrame.zero
        let tnc1 := { tnc with streamFull := false, streamCurr := (tnc.streamCurr + 1) % 8 }
        ((if frame.endOfStream then { tnc1 with state := .txStreamSentEndOfStream } else tnc1),
          some (.stream frame))
  | .txStreamSentEndOfStream => ({ tnc with state := .txEnding }, some .endOfTransmission)
  | .txPacket =>
    if ¬tnc.packetFull ∧ tnc.packetNext = tnc.packetCurr then (tnc, none)
    else txPacketLoop tnc 5
  | .txEnding | .txEndingAtTime _ => (tnc, none)

/-! ## Claims about the TNC -/

/-- The TNC used for the claim C2 scenario: half duplex (the default), a
pending stream LSF queued for transmission, DCD currently asserted, and the
sample clock at 3. -/
def c2Tnc0 : SoftTnc :=
  { SoftTnc.new with
    streamPendingLsf := some (List.replicate 30 0)
    dcd := true
    now := 3 }

/-- The all-zero LSF with byte 13 set to 1: its TYPE field selects Stream mode,
and its CRC does not verify. -/
def c5BadLsf : List Nat := (List.replicate 30 0).set 13 1

/-! ## Packet frame byte-level codec (`encode.rs` / `decode.rs`), claim C3 -/

/-- `encode.rs` `encode_packet`: construction of the 26-byte type-1 buffer
that is then fed to `fec::encode(.., 206, p_3)`.  `none` marks the panic of
`type1[0..payload_len]` when `payload_len > 25` (unreachable from the TNC).
Counter bytes are u8, so shifts are masked to 8 bits. -/
def encodePacketType1 (p : PacketFrame) : Option (List Nat) :=
  match p.counter with
  | .frame index =>
    some (p.payload.take 25 ++ List.replicate (25 - p.payload.length) 0 ++
      [((index &&& 255) <<< 2) &&& 255])
  | .finalFrame payloadLen =>
    if payloadLen ≤ 25 then
      some (p.payload.take payloadLen ++ List.replicate (25 - min payloadLen p.payload.length) 0 ++
        [(((payloadLen &&& 255) <<< 2) ||| 0x80) &&& 255])
    else none

/-- `decode.rs` `parse_packet`, applied to the 30-byte output of
`fec::decode`: byte 25 yields the counter (`final` is bit 0x04, the number is
`byte25 >> 3`), bytes 0..25 are the payload. -/
def parsePacketFromType1 (packet : List Nat) : PacketFrame :=
  let b25 := packet.getD 25 0
  { payload := packet.take 25
    counter := if b25 &&& 0x04 > 0 then .finalFrame (b25 >>> 3) else .frame (b25 >>> 3) }

/-! ## Reflector voice-to-RF conversion (`reflector/convert.rs`), claim C4 -/

/-- `reflector/packet.rs` `Voice::new`: 54 zero bytes with the `"M17 "` magic. -/
def voiceNew : List Nat := [77, 49, 55, 32] ++ List.replicate 50 0

/-- `reflector/packet.rs` `impl_link_setup!(Voice, 6)` `link_setup_frame`:
datagram bytes 6..34 become LSF bytes 0..28 and the CRC is recomputed. -/
def voiceLinkSetupFrame (v : List Nat) : List Nat :=
  recalculateCrc ((v.drop 6).take 28 ++ [0, 0])

/-- `reflector/packet.rs` `impl_frame_number!(Voice, 34)` `frame_number`. -/
def voiceFrameNumber (v : List Nat) : Nat :=
  (v.getD 34 0 * 256 + v.getD 35 0) &&& 0x7fff

/-- `reflector/packet.rs` `impl_frame_number!(Voice, 34)` `is_end_of_stream`. -/
def voiceIsEndOfStream (v : List Nat) : Bool :=
  (v.getD 34 0 * 256 + v.getD 35 0) &&& 0x8000 > 0

/-- `reflector/packet.rs` `impl_payload!(Voice, 36, 52)` `payload`. -/
def voicePayload (v : List Nat) : List Nat :=
  (v.drop 36).take 16

/-- `reflector/convert.rs` `VoiceToRf`. -/
structure VoiceToRf where
  lsf : Option (List Nat)
  lichCnt : Nat
deriving DecidableEq

/-- `reflector/convert.rs` `VoiceToRf::new`. -/
def VoiceToRf.new : VoiceToRf := ⟨none, 0⟩

/-- `reflector/convert.rs` `VoiceToRf::next`. -/
def voiceToRfNext (s : VoiceToRf) (v : List Nat) :
    VoiceToRf × Option (List Nat) × StreamFrame :=
  let thisLsf := voiceLinkSetupFrame v
  let emitLsf : Bool := decide (some thisLsf ≠ s.lsf)
  let s1 : VoiceToRf := if some thisLsf ≠ s.lsf then ⟨some thisLsf, 0⟩ else s
  let lsf := s1.lsf.getD []
  let stream : StreamFrame :=
    { lichIdx := s1.lichCnt
      lichPart := (lsf.drop (s1.lichCnt * 5)).take 5
      frameNumber := voiceFrameNumber v
      endOfStream := voiceIsEndOfStream v
      streamData := voicePayload v }
  let outLsf := if emitLsf then s1.lsf else none
  let s2 := if voiceIsEndOfStream v then { s1 with lsf := none } else s1
  (s2, outLsf, stream)

/-! ## Packet transmission on the app side (`app.rs`), claim C9 -/

/-- `protocol.rs` `PacketType`, with `Other` carrying the character's Unicode
code point. -/
inductive PacketType
  | raw
  | ax25
  | aprs
  | sixLowPan
  | ipv4
  | sms
  | winlink
  | other (c : Nat)
deriving DecidableEq

/-- UTF-8 encoding of a code point, as Rust's `char::encode_utf8` produces it. -/
def utf8Encode (c : Nat) : List Nat :=
  if c < 0x80 then [c]
  else if c < 0x800 then
    [0xC0 ||| (c >>> 6), 0x80 ||| (c &&& 0x3F)]
  else if c < 0x10000 then
    [0xE0 ||| (c >>> 12), 0x80 ||| ((c >>> 6) &&& 0x3F), 0x80 ||| (c &&& 0x3F)]
  else
    [0xF0 ||| (c >>> 18), 0x80 ||| ((c >>> 12) &&& 0x3F), 0x80 ||| ((c >>> 6) &&& 0x3F),
      0x80 ||| (c &&& 0x3F)]

/-- `protocol.rs` `PacketType::as_proto`: a 4-byte buffer and the number of
significant bytes. -/
def asProto : PacketType → List Nat × Nat
  | .raw => ([0, 0, 0, 0], 1)
  | .ax25 => ([1, 0, 0, 0], 1)
  | .aprs => ([2, 0, 0, 0], 1)
  | .sixLowPan => ([3, 0, 0, 0], 1)
  | .ipv4 => ([4, 0, 0, 0], 1)
  | .sms => ([5, 0, 0, 0], 1)
  | .winlink => ([6, 0, 0, 0], 1)
  | .other c =>
    (utf8Encode c ++ List.replicate (4 - (utf8Encode c).length) 0, (utf8Encode c).length)

/-- `app.rs` `TxHandle::transmit_packet`.  The result is the error
`PacketTooLarge{provided, capacity}` or the full-packet KISS frame handed to
the TNC writer channel; the outer `Option` marks the `.unwrap()` on
`new_full_packet` (never `none` when the LSF is 30 bytes). -/
def transmitPacket (lsf : List Nat) (packetType : PacketType) (payload : List Nat) :
    Option (Except (Nat × Nat) (List Nat)) :=
  let pt := asProto packetType
  if pt.2 + payload.length > 823 then
    some (.error (payload.length, 823 - pt.2))
  else
    let fullPayload := pt.1.take pt.2 ++ payload
    let crc := m17Crc fullPayload
    match newFullPacket lsf (fullPayload ++ [crc >>> 8, crc &&& 255]) with
    | some k => some (.ok k)
    | none => none

/-! ## Convolutional FEC (`fec.rs`), claim C8

The encoder shifts each input bit into a 4-bit state and emits
`g1 = b ^ s1 ^ s0` and `g2 = b ^ s3 ^ s2 ^ s0`, punctured per schedule; the
decoder is the Viterbi algorithm over the 32-entry `TRANSITIONS` table with a
hard-bit Hamming metric and saturating `u8` path scores. -/

/-- `fec.rs` `encode`: the `g1` output bit. -/
def convG1 (b : Bool) (s : Nat) : Bool :=
  (b.xor (s.testBit 1)).xor (s.testBit 0)

/-- `fec.rs` `encode`: the `g2` output bit. -/
def convG2 (b : Bool) (s : Nat) : Bool :=
  ((b.xor (s.testBit 3)).xor (s.testBit 2)).xor (s.testBit 0)

/-- Both encoder output bits for input `b` from state `s`. -/
def stepOut (b : Bool) (s : Nat) : Bool × Bool :=
  (convG1 b s, convG2 b s)

/-- `fec.rs` `encode`: `state = (state >> 1) | (b << 3)`. -/
def nextState (b : Bool) (s : Nat) : Nat :=
  (s >>> 1) ||| (if b then 8 else 0)

/-- `fec.rs` `p_1` (LSF puncturing). -/
def p1 (step : Nat) : Bool × Bool :=
  let mod61 := step % 61
  let isEven := decide (mod61 % 2 = 0)
  (decide (mod61 > 30) || isEven, decide (mod61 < 30) || isEven)

/-- `fec.rs` `p_2` (stream puncturing). -/
def p2 (step : Nat) : Bool × Bool :=
  (true, decide (step % 6 ≠ 5))

/-- `fec.rs` `p_3` (packet puncturing). -/
def p3 (step : Nat) : Bool × Bool :=
  (true, decide (step % 4 ≠ 3))

/-- The encoder's emission for one step: `g1` when the schedule keeps it, then
`g2` when kept. -/
def punctOut (pr : Bool × Bool) (o : Bool × Bool) : List Bool :=
  (if pr.1 then [o.1] else []) ++ (if pr.2 then [o.2] else [])

/-- The encoder loop of `fec.rs` `encode` over the remaining input bits,
carrying the step index and the shift-register state. -/
def encodeSteps (p : Nat → Bool × Bool) : Nat → Nat → List Bool → List Bool
  | _, _, [] => []
  | i, s, b :: rest =>
    punctOut (p i) (stepOut b s) ++ encodeSteps p (i + 1) (nextState b s) rest

/-- `fec.rs` `encode` at the bit level: the input bits followed by four flush
zeros, encoded from state 0 and step 0. -/
def fecEncodeBits (p : Nat → Bool × Bool) (u : List Bool) : List Bool :=
  encodeSteps p 0 0 (u ++ [false, false, false, false])

/-- `fec.rs` `TRANSITIONS[t].input`: entries 0..15 carry input 0, entries
16..31 input 1. -/
def tIn (t : Nat) : Bool :=
  decide (16 ≤ t)

/-- `fec.rs` `TRANSITIONS[t].source`: the source states cycle 0..15 twice. -/
def tSrc (t : Nat) : Nat :=
  t % 16

/-- `fec.rs` `TRANSITIONS[t].output`, transcribed literally from the static
table. -/
def tOut : Nat → Bool × Bool
  | 0 => (false, false)
  | 1 => (true, true)
  | 2 => (true, false)
  | 3 => (false, true)
  | 4 => (false, true)
  | 5 => (true, false)
  | 6 => (true, true)
  | 7 => (false, false)
  | 8 => (false, true)
  | 9 => (true, false)
  | 10 => (true, true)
  | 11 => (false, false)
  | 12 => (false, false)
  | 13 => (true, true)
  | 14 => (true, false)
  | 15 => (false, true)
  | 16 => (true, true)
  | 17 => (false, false)
  | 18 => (false, true)
  | 19 => (true, false)
  | 20 => (true, false)
  | 21 => (false, true)
  | 22 => (false, false)
  | 23 => (true, true)
  | 24 => (true, false)
  | 25 => (false, true)
  | 26 => (false, false)
  | 27 => (true, true)
  | 28 => (true, true)
  | 29 => (false, false)
  | 30 => (false, true)
  | 31 => (true, false)
  | _ => (false, false)

/-- `fec.rs` `decode`: bits consumed from the input iterator per step
(`split_idx`): two when both generator bits survive puncturing, otherwise one. -/
def readCount (pr : Bool × Bool) : Nat :=
  if pr.1 && pr.2 then 2 else 1

/-- `fec.rs` `decode`: the transition's offered bits (`t_offer`) under the
step's puncturing. -/
def tOffer (pr : Bool × Bool) (o : Bool × Bool) : List Bool :=
  if pr.1 && pr.2 then [o.1, o.2] else if pr.1 then [o.1] else [o.2]

/-- `fec.rs` `hamming_distance` on the zipped prefix. -/
def hamming : List Bool → List Bool → Nat
  | x :: xs, y :: ys => (if x = y then 0 else 1) + hamming xs ys
  | _, _ => 0

/-- `u8::saturating_add` on path scores. -/
def satAdd (a b : Nat) : Nat :=
  min (a + b) 255

/-- Number of encoded bits consumed by steps `i0 .. i0 + j - 1`; the decoder's
sequential iterator reads mean the observation for step `j` starts at
`offsetFrom p 0 j`. -/
def offsetFrom (p : Nat → Bool × Bool) (i0 : Nat) : Nat → Nat
  | 0 => 0
  | j + 1 => readCount (p i0) + offsetFrom p (i0 + 1) j

/-- The bits the decoder reads for step `j` (`step_input` in `fec.rs`). -/
def obsAt (p : Nat → Bool × Bool) (bits : List Bool) (j : Nat) : List Bool :=
  (bits.drop (offsetFrom p 0 j)).take (readCount (p j))

/-- `fec.rs` `best_previous` at step 0: score 0 in state 0, `u8::MAX` elsewhere. -/
def bestPrev0 (s : Nat) : Nat :=
  if s = 0 then 0 else 255

/-- The Viterbi score table of `fec.rs` `decode`: `vcol p obs step t` is
`table[step][t]`. -/
def vcol (p : Nat → Bool × Bool) (obs : Nat → List Bool) : Nat → Nat → Nat
  | 0, t => satAdd (bestPrev0 (tSrc t)) (hamming (obs 0) (tOffer (p 0) (tOut t)))
  | step + 1, t =>
    satAdd (min (vcol p obs step (tSrc t * 2)) (vcol p obs step (tSrc t * 2 + 1)))
      (hamming (obs (step + 1)) (tOffer (p (step + 1)) (tOut t)))

/-- Rust's `Iterator::min_by_key` over indices `0 .. n-1`: the first index
attaining the minimum. -/
def firstMinIdx (f : Nat → Nat) : Nat → Nat
  | 0 => 0
  | 1 => 0
  | n + 2 =>
    let prev := firstMinIdx f (n + 1)
    if f (n + 1) < f prev then n + 1 else prev

/-- One traceback update of `fec.rs` `decode`: from the transition at step
`stepMinus1 + 1`, pick the incoming transition with the strictly smaller score
in column `stepMinus1` (ties go to `state * 2 + 1`). -/
def tracePrev (p : Nat → Bool × Bool) (obs : Nat → List Bool) (stepMinus1 t : Nat) : Nat :=
  if vcol p obs stepMinus1 (tSrc t * 2) < vcol p obs stepMinus1 (tSrc t * 2 + 1) then
    tSrc t * 2
  else tSrc t * 2 + 1

/-- The transition chosen by the traceback at step `last - k`. -/
def chosen (p : Nat → Bool × Bool) (obs : Nat → List Bool) (last : Nat) : Nat → Nat
  | 0 => firstMinIdx (vcol p obs last) 32
  | k + 1 => tracePrev p obs (last - k - 1) (chosen p obs last k)

/-- `fec.rs` `decode` at the bit level: `none` when the best final score
exceeds 6, otherwise the 240 output bits (bit `step` is the chosen
transition's input for `step < input_len`, and the zero-initialised buffer
leaves the rest 0). -/
def fecDecodeBits (p : Nat → Bool × Bool) (bits : List Bool) (inputLen : Nat) :
    Option (List Bool) :=
  let obs := obsAt p bits
  let last := inputLen + 3
  if vcol p obs last (firstMinIdx (vcol p obs last) 32) > 6 then none
  else
    some ((List.range 240).map (fun i =>
      if i < inputLen then tIn (chosen p obs last (last - i)) else false))

/-- The MSB-first bits of one byte, as `bits.rs` iterates them. -/
def byteBits (b : Nat) : List Bool :=
  [b.testBit 7, b.testBit 6, b.testBit 5, b.testBit 4,
    b.testBit 3, b.testBit 2, b.testBit 1, b.testBit 0]

/-- MSB-first bit stream of a byte buffer (`bits.rs` `Bits::iter`). -/
def bytesToBits (bs : List Nat) : List Bool :=
  bs.flatMap byteBits

/-- Reassemble one byte from up to eight MSB-first bits. -/
def bitsToByte (l : List Bool) : Nat :=
  l.foldl (fun acc b => acc * 2 + (if b then 1 else 0)) 0

/-- Reassemble a byte buffer from an MSB-first bit stream (`BitsMut::set_bit`
writes into zero-initialised bytes). -/
def bitsToBytes : List Bool → List Nat
  | [] => []
  | b :: rest => bitsToByte ((b :: rest).take 8) :: bitsToBytes (rest.drop 7)
  termination_by l => l.length
  decreasing_by simp [List.length_drop]; omega

/-- `fec.rs` `encode` at the byte level: input bits are read MSB-first and
capped at `input_len` before the four flush zeros (`fecEncodeBits`), and the
emitted bits are written into a zero-initialised 46-byte (368-bit) buffer;
`none` marks the panic of `set_bit` when the punctured stream overflows
368 bits. -/
def fecEncodeBytes (type1 : List Nat) (inputLen : Nat) (p : Nat → Bool × Bool) :
    Option (List Nat) :=
  if (fecEncodeBits p ((bytesToBits type1).take inputLen)).length ≤ 368 then
    some (bitsToBytes (fecEncodeBits p ((bytesToBits type1).take inputLen) ++
      List.replicate (368 - (fecEncodeBits p ((bytesToBits type1).take inputLen)).length)
        false))
  else none

/-- `fec.rs` `decode` at the byte level: bits are read MSB-first from `type3`
and the 240 output bits become the returned 30-byte buffer. -/
def fecDecodeBytes (type3 : List Nat) (inputLen : Nat) (p : Nat → Bool × Bool) :
    Option (List Nat) :=
  (fecDecodeBits p (bytesToBits type3) inputLen).map bitsToBytes

/-! ### The true path through the trellis -/

/-- Bit `i` of a bit list (0 beyond the end, matching the zero-initialised
Rust buffers). -/
def bitAt (l : List Bool) (i : Nat) : Bool :=
  l.getD i false

/-- The encoder state before consuming bit `j`, starting from state `s`. -/
def stateIter (s : Nat) (w : List Bool) : Nat → Nat
  | 0 => s
  | j + 1 => nextState (bitAt w j) (stateIter s w j)

/-- The encoder state before step `i` on input `w` (from the initial state 0). -/
def stateAt (w : List Bool) (i : Nat) : Nat :=
  stateIter 0 w i

/-- The index of the `TRANSITIONS` entry the encoder takes at step `i`. -/
def trueT (w : List Bool) (i : Nat) : Nat :=
  (if bitAt w i then 16 else 0) + stateAt w i

/-- The four flush zeros the encoder appends (`fec.rs` `encode`,
`chain(core::iter::repeat_n(0, 4))`). -/
def flush4 (u : List Bool) : List Bool :=
  u ++ [false, false, false, false]

/-- The CRC-valid LSF test vector used by the repository's own
`lsf_fec_round_trip` test. -/
def lsfTestVector : List Nat :=
  [255, 255, 255, 255, 255, 255, 0, 0, 0, 159, 221, 81, 5, 5, 0, 0, 0, 0, 0, 0,
    0, 0, 0, 0, 0, 0, 0, 0, 131, 53]

/-! ### KISS buffer (`kiss.rs`: `KissBuffer`) -/

/-- `KissBuffer` (kiss.rs).  `buf` models `frame.data[0..written]`, the live
region of the fixed 1713-byte array; `firstFrameReturned` models the
`first_frame_returned` flag.  Bytes of `frame.data` beyond `written` never
influence the behaviour modelled here. -/
structure KissBuffer where
  buf : List Nat
  firstFrameReturned : Bool
deriving DecidableEq

/-- `KissBuffer::new`. -/
def KissBuffer.new : KissBuffer := ⟨[], false⟩

/-- The `i = 2; while data[i] != FEND` scan shared by `next_frame` and
`flush_first_frame`: the first index `≥ 2` holding FEND, within the live
region.  `none` models the flush loop running past `written` into stale
bytes, which is unreachable in the states analysed here. -/
def findFendFrom2 (buf : List Nat) : Option Nat :=
  (List.findIdx? (fun b => b == FEND) (buf.drop 2)).map (fun j => j + 2)

/-- The `while (i + 1) < written && data[i + 1] == FEND { i += 1 }` loop:
the number of consecutive FEND bytes directly after position `i`. -/
def fendRunAfter (buf : List Nat) (i : Nat) : Nat :=
  (List.takeWhile (fun b => b == FEND) (buf.drop (i + 1))).length

/-- `KissBuffer::flush_first_frame` (kiss.rs).  On the live region,
`move_to_start(idx)` is `List.drop idx`. -/
def flushFirstFrame (k : KissBuffer) : Option KissBuffer :=
  if k.firstFrameReturned = false then some k
  else
    match findFendFrom2 k.buf with
    | none => none
    | some i => some ⟨k.buf.drop (i + fendRunAfter k.buf i), false⟩

/-- First `move_to_start` of `next_frame`: scan past data without a leading
FEND (`while i < written && data[i] != FEND`). -/
def skipJunk (buf : List Nat) : List Nat :=
  buf.drop (List.takeWhile (fun b => !(b == FEND)) buf).length

/-- Second `move_to_start` of `next_frame`: scan up to the last FEND of a
leading series (`while (i + 1) < written && data[i + 1] == FEND`). -/
def coalesceFends (buf : List Nat) : List Nat :=
  buf.drop (List.takeWhile (fun b => b == FEND) (buf.drop 1)).length

/-- The final phase of `next_frame`: if the shifted buffer holds
`FEND non-FEND … FEND`, return that frame (`frame.len = i + 1`) and set
`first_frame_returned`. -/
def frameScan (b2 : List Nat) : Option (List Nat) × KissBuffer :=
  if 2 ≤ b2.length ∧ b2.getD 0 0 = FEND ∧ b2.getD 1 0 ≠ FEND then
    match findFendFrom2 b2 with
    | some i => (some (b2.take (i + 1)), ⟨b2, true⟩)
    | none => (none, ⟨b2, false⟩)
  else (none, ⟨b2, false⟩)

/-- `KissBuffer::next_frame` (kiss.rs): flush a previously returned frame,
shift out junk and redundant FENDs, then look for a complete frame.  The
outer `Option` is the panic monad for the unreachable stale-byte read in
`flush_first_frame`. -/
def kissNextFrame (k : KissBuffer) : Option (Option (List Nat) × KissBuffer) :=
  match flushFirstFrame k with
  | none => none
  | some k1 => some (frameScan (coalesceFends (skipJunk k1.buf)))

/-- One producer delivery: `buf_remaining()` (flush, oversized-frame reset,
expose `data[written..]`) followed by writing `chunk` into that slice and
`did_write(chunk.length)`.  `none` when the chunk does not fit the exposed
slice, i.e. no such single delivery exists. -/
def kbFeed (k : KissBuffer) (chunk : List Nat) : Option KissBuffer :=
  match flushFirstFrame k with
  | none => none
  | some k1 =>
    if k1.buf.length = 1713 then
      if chunk.length ≤ 1713 then some ⟨chunk, k1.firstFrameReturned⟩ else none
    else if chunk.length ≤ 1713 - k1.buf.length then
      some ⟨k1.buf ++ chunk, k1.firstFrameReturned⟩
    else none

/-- Call `next_frame` repeatedly, collecting the returned frames, until it
returns no frame; `fuel` bounds the number of calls. -/
def kbDrainF : Nat → KissBuffer → Option (List (List Nat) × KissBuffer)
  | 0, _ => none
  | fuel + 1, k =>
    (kissNextFrame k).bind fun r =>
      match r.1 with
      | none => some ([], r.2)
      | some f => (kbDrainF fuel r.2).map fun pr => (f :: pr.1, pr.2)

/-- Drain with always-sufficient fuel: every returned frame occupies at
least two buffered bytes that are flushed before the next return, so
`buf.length + 1` calls always reach a no-frame answer. -/
def kbDrain (k : KissBuffer) : Option (List (List Nat) × KissBuffer) :=
  kbDrainF (k.buf.length + 1) k

/-- Deliver each chunk in turn, calling `next_frame` until it yields no
frame after each delivery, and collect every frame returned. -/
def runChunks : KissBuffer → List (List Nat) → Option (List (List Nat) × KissBuffer)
  | k, [] => some ([], k)
  | k, c :: cs =>
    (kbFeed k c).bind fun k1 =>
      (kbDrain k1).bind fun pr =>
        (runChunks pr.2 cs).map fun pr2 => (pr.1 ++ pr2.1, pr2.2)

/-- The byte stream `FEND f1 FEND FEND FEND^kx f2 FEND` of claim C7. -/
def kissStream (f1 f2 : List Nat) (kx : Nat) : List Nat :=
  (FEND :: f1) ++ (List.replicate (kx + 2) FEND ++ (f2 ++ [FEND]))

/-- Buffer contents after `p` stream bytes have been fed and fully drained. -/
def c7Buf (f1 f2 : List Nat) (kx p : Nat) : List Nat :=
  if p < 2 + f1.length then (kissStream f1 f2 kx).take p
  else if p ≤ 3 + f1.length + kx then [FEND]
  else if p < 4 + f1.length + kx + f2.length then
    FEND :: f2.take (p - (3 + f1.length + kx))
  else [FEND]

/-- Frames still to be emitted once `p` stream bytes have been consumed. -/
def c7Rem (f1 f2 : List Nat) (kx p : Nat) : List (List Nat) :=
  if p < 2 + f1.length then [FEND :: (f1 ++ [FEND]), FEND :: (f2 ++ [FEND])]
  else if p < 4 + f1.length + kx + f2.length then [FEND :: (f2 ++ [FEND])]
  else []

/-- Frames emitted while consumption advances from `p` to `q`. -/
def c7New (f1 f2 : List Nat) (kx p q : Nat) : List (List Nat) :=
  (if p < 2 + f1.length ∧ 2 + f1.length ≤ q then [FEND :: (f1 ++ [FEND])] else []) ++
    (if p < 4 + f1.length + kx + f2.length ∧ 4 + f1.length + kx + f2.length ≤ q then
      [FEND :: (f2 ++ [FEND])] else [])

/-! ## Theorems -/

example : m17Crc [] = 0xFFFF := by decide

example : m17Crc [65] = 0x206E := by decide

example : m17Crc [49, 50, 51, 52, 53, 54, 55, 56, 57] = 0x772B := by decide

/-! Helper lemmas about list reads and writes, used throughout. -/

theorem getD_set_self (l : List Nat) (i : Nat) (a d : Nat) (h : i < l.length) :
    (l.set i a).getD i d = a := by
  simp [List.getD_eq_getElem?_getD, List.getElem?_set_self', List.getElem?_eq_getElem h]

theorem getD_set_ne (l : List Nat) (i j : Nat) (a d : Nat) (h : i ≠ j) :
    (l.set i a).getD j d = l.getD j d := by
  simp [List.getD_eq_getElem?_getD, List.getElem?_set_ne h]

theorem take_set_of_le (l : List Nat) (i n : Nat) (a : Nat) (h : n ≤ i) :
    (l.set i a).take n = l.take n := by
  apply List.ext_getElem?
  intro j
  rcases Nat.lt_or_ge j n with hj | hj
  · simp [List.getElem?_take, hj, List.getElem?_set_ne (by omega : i ≠ j)]
  · have h1 : (List.take n (l.set i a))[j]? = none := by
      apply List.getElem?_eq_none
      have := List.length_take_le n (l.set i a)
      omega
    have h2 : (List.take n l)[j]? = none := by
      apply List.getElem?_eq_none
      have := List.length_take_le n l
      omega
    rw [h1, h2]

theorem getD_lt_of_mem_lt (l : List Nat) (i : Nat) (h : i < l.length)
    (hb : ∀ b ∈ l, b < 256) : l.getD i 0 < 256 := by
  rw [List.getD_eq_getElem l 0 h]
  exact hb _ (List.getElem_mem h)

theorem byte12WithCan_facts : ∀ b < 256, ∀ n < 16,
    byte12WithCan b n &&& 7 = n >>> 1 ∧ byte12WithCan b n &&& 248 = b &&& 248 ∧
      byte12WithCan b n < 256 := by
  decide

theorem byte13WithCan_facts : ∀ b < 256, ∀ n < 16,
    byte13WithCan b n / 128 = n % 2 ∧ byte13WithCan b n &&& 127 = b &&& 127 ∧
      byte13WithCan b n < 256 := by
  decide

theorem can_readback (A B n : Nat) (_hB : B < 256) (hn : n < 16)
    (h7 : A &&& 7 = n >>> 1) (hd : B / 128 = n % 2) :
    ((A * 256 + B) >>> 7) &&& 15 = n := by
  have e15 : (15 : Nat) = 2 ^ 4 - 1 := by norm_num
  have e7 : (7 : Nat) = 2 ^ 3 - 1 := by norm_num
  rw [e15, Nat.and_pow_two_sub_one_eq_mod, Nat.shiftRight_eq_div_pow]
  rw [e7, Nat.and_pow_two_sub_one_eq_mod, Nat.shiftRight_eq_div_pow] at h7
  norm_num at h7 ⊢
  omega

theorem setCan_normal (f : List Nat) (n : Nat) (h : f.length = 30) :
    setChannelAccessNumber f n =
      recalculateCrc ((f.set 12 (byte12WithCan (f.getD 12 0) n)).set 13
        (byte13WithCan (f.getD 13 0) n)) := by
  have h12 : (12 : Nat) < f.length := by omega
  unfold setChannelAccessNumber setBit byte12WithCan byte13WithCan
  norm_num
  simp [List.getElem?_set, h12, List.set_set]

/-- Claim C6 (counterexample): setting the CAN on the all-zero LSF does round-trip
the CAN value, but it also rewrites CRC byte 28, so a byte outside the CAN bit
positions changes, contradicting the claim as stated. -/
theorem c6_can_counterexample :
    channelAccessNumber (setChannelAccessNumber (List.replicate 30 0) 11) = 11 ∧
    (setChannelAccessNumber (List.replicate 30 0) 11).getD 28 0 ≠
      (List.replicate 30 0).getD 28 0 := by
  decide

/-- Claim C6 (amended): for every 30-byte LSF frame and every CAN value `n < 16`,
`set_channel_access_number n` followed by `channel_access_number` returns `n`;
no byte outside bytes 12, 13, 28, 29 changes; within byte 12 only bits 5..7
(MSB-first) change and within byte 13 only bit 0 changes; and bytes 28..29 are
rewritten with the recomputed CRC of bytes 0..28. -/
theorem c6_can_roundtrip (f : List Nat) (n : Nat) (hlen : f.length = 30)
    (hb : ∀ b ∈ f, b < 256) (hn : n < 16) :
    channelAccessNumber (setChannelAccessNumber f n) = n ∧
    (∀ i, i < 30 → i ≠ 12 → i ≠ 13 → i ≠ 28 → i ≠ 29 →
      (setChannelAccessNumber f n).getD i 0 = f.getD i 0) ∧
    (setChannelAccessNumber f n).getD 12 0 &&& 248 = f.getD 12 0 &&& 248 ∧
    (setChannelAccessNumber f n).getD 13 0 &&& 127 = f.getD 13 0 &&& 127 ∧
    (setChannelAccessNumber f n).getD 28 0 =
      m17Crc ((setChannelAccessNumber f n).take 28) >>> 8 ∧
    (setChannelAccessNumber f n).getD 29 0 =
      m17Crc ((setChannelAccessNumber f n).take 28) &&& 255 := by
  have hb12 : f.getD 12 0 < 256 := getD_lt_of_mem_lt f 12 (by omega) hb
  have hb13 : f.getD 13 0 < 256 := getD_lt_of_mem_lt f 13 (by omega) hb
  obtain ⟨hA7, hA248, hAlt⟩ := byte12WithCan_facts _ hb12 n hn
  obtain ⟨hBd, hB127, hBlt⟩ := byte13WithCan_facts _ hb13 n hn
  rw [setCan_normal f n hlen]
  set A := byte12WithCan (f.getD 12 0) n with hAdef
  set B := byte13WithCan (f.getD 13 0) n with hBdef
  set g : List Nat := (f.set 12 A).set 13 B with hgdef
  have hglen : g.length = 30 := by simp [hgdef, hlen]
  have hg12 : g.getD 12 0 = A := by
    rw [hgdef, getD_set_ne _ _ _ _ _ (by omega), getD_set_self _ _ _ _ (by simp [hlen])]
  have hg13 : g.getD 13 0 = B := by
    rw [hgdef, getD_set_self _ _ _ _ (by simp [hlen])]
  unfold recalculateCrc
  set crc := m17Crc (g.take 28) with hc
  have htake : ((g.set 28 (crc >>> 8)).set 29 (crc &&& 255)).take 28 = g.take 28 := by
    rw [take_set_of_le _ _ _ _ (by omega), take_set_of_le _ _ _ _ (by omega)]
  refine ⟨?_, ?_, ?_, ?_, ?_, ?_⟩
  · show (lsfType _ >>> 7) &&& 15 = n
    have h12 : ((g.set 28 (crc >>> 8)).set 29 (crc &&& 255)).getD 12 0 = A := by
      rw [getD_set_ne _ _ _ _ _ (by omega), getD_set_ne _ _ _ _ _ (by omega), hg12]
    have h13 : ((g.set 28 (crc >>> 8)).set 29 (crc &&& 255)).getD 13 0 = B := by
      rw [getD_set_ne _ _ _ _ _ (by omega), getD_set_ne _ _ _ _ _ (by omega), hg13]
    unfold lsfType
    rw [h12, h13]
    exact can_readback A B n hBlt hn hA7 hBd
  · intro i hi h12 h13 h28 h29
    rw [getD_set_ne _ _ _ _ _ (by omega), getD_set_ne _ _ _ _ _ (by omega), hgdef,
      getD_set_ne _ _ _ _ _ (by omega), getD_set_ne _ _ _ _ _ (by omega)]
  · rw [getD_set_ne _ _ _ _ _ (by omega), getD_set_ne _ _ _ _ _ (by omega), hg12, hA248]
  · rw [getD_set_ne _ _ _ _ _ (by omega), getD_set_ne _ _ _ _ _ (by omega), hg13, hB127]
  · rw [htake, getD_set_ne _ _ _ _ _ (by omega),
      getD_set_self _ _ _ _ (by simp [hglen])]
  · rw [htake, getD_set_self _ _ _ _ (by simp [hglen])]

/-- Witness for `c6_can_roundtrip` at the all-zero frame and CAN 11. -/
theorem c6_can_roundtrip_witness :
    (List.replicate 30 (0 : Nat)).length = 30 ∧
    channelAccessNumber (setChannelAccessNumber (List.replicate 30 0) 11) = 11 := by
  refine ⟨by decide, ?_⟩
  exact (c6_can_roundtrip (List.replicate 30 0) 11 (by decide)
    (by decide) (by decide)).1

/-- Claim C1: `handle_frame` does **not** return normally on every
`FinalFrame{payload_len}` with `payload_len ≤ 31`: in the `RxPacket` state the
code slices `packet.payload[0..payload_len]` out of a 25-byte array, so any
`payload_len` of 26..=31 (all producible by `parse_packet`, whose
`payload_len = byte25 >> 3` ranges over 0..=31) panics.  The model returns
`none` at the panic. -/
theorem c1_handle_frame_panic :
    handleFrame
      { SoftTnc.new with
        state := .rxPacket ⟨List.replicate 30 0, List.replicate 825 0, 0⟩ }
      (.packet ⟨List.replicate 25 0, .finalFrame 26⟩) = none := by
  decide

/-- Claim C2: the CSMA decision in `read_tx_frame` is inverted.  With DCD held
high throughout, the first call defers (schedules a re-check at `now + 1920`),
but at the re-check time — DCD still high and the p-persistence draw
`(now & 3) == 3` succeeding — the TNC transmits a Preamble into the busy
channel, contradicting "with DCD held high, no frames are emitted".  (With DCD
low at the re-check time, the same branch defers forever instead.) -/
theorem c2_csma_inverted :
    (readTxFrame c2Tnc0).2 = none ∧
    (readTxFrame c2Tnc0).1.nextCsmaCheck = some 1923 ∧
    (setNow (readTxFrame c2Tnc0).1 1923).dcd = true ∧
    (readTxFrame (setNow (readTxFrame c2Tnc0).1 1923)).2 =
      some (.preamble 0) := by
  decide

/-- Claim C5 (counterexample): a stream-mode LSF whose CRC check fails is not
discarded by `handle_frame`: the TNC leaves its current state (Idle →
RxStream) and also emits a stream-setup KISS frame to the host. -/
theorem c5_crc_lsf_adopted :
    checkCrc c5BadLsf ≠ 0 ∧
    handleFrame SoftTnc.new (.lsf c5BadLsf) =
      some { SoftTnc.new with
        outgoingKiss := some (newStreamSetup c5BadLsf, 0)
        state := .rxStream ⟨c5BadLsf, 0⟩ } := by
  decide

/-- Claim C5 (amended): `handle_frame` performs no CRC gate on a received
`Frame::Lsf`.  For every TNC with PTT off and every 30-byte LSF — CRC-valid or
not — the frame is adopted according to its mode alone: Packet mode enters
`RxPacket` silently, Stream mode emits a stream-setup KISS frame and enters
`RxStream`.  (CRC is enforced only when adopting an LSF assembled from LICH
segments, and on host-submitted LSFs in `write_kiss`.) -/
theorem c5_lsf_no_crc_gate (tnc : SoftTnc) (lsf : List Nat) (hptt : tnc.ptt = false) :
    handleFrame tnc (.lsf lsf) =
      some (match lsfMode lsf with
        | .packet => { tnc with state := .rxPacket ⟨lsf, List.replicate 825 0, 0⟩ }
        | .stream =>
          { tnc with
            outgoingKiss := some (newStreamSetup lsf, 0)
            state := .rxStream ⟨lsf, 0⟩ }) := by
  unfold handleFrame
  cases h : lsfMode lsf <;> simp [h, hptt, kissToHost]

/-- Witness for `c5_lsf_no_crc_gate`: the all-zero LSF is packet mode. -/
theorem c5_lsf_no_crc_gate_witness :
    SoftTnc.new.ptt = false ∧
    handleFrame SoftTnc.new (.lsf (List.replicate 30 0)) =
      some { SoftTnc.new with
        state := .rxPacket ⟨List.replicate 30 0, List.replicate 825 0, 0⟩ } := by
  refine ⟨rfl, ?_⟩
  rw [c5_lsf_no_crc_gate SoftTnc.new (List.replicate 30 0) rfl]
  decide

/-- Claim C10: the TNC buffers at most one host-bound KISS frame.
`kiss_to_host` unconditionally overwrites the single `outgoing_kiss` slot with
the new frame and a zero `sent` cursor, whatever was there before (first
conjunct); in particular `handle_frame` does so even while a previous frame is
still partially undelivered (second conjunct, for the stream-setup emission);
and a subsequent `read_kiss` drain returns only the new frame's bytes (third
conjunct), so the undelivered bytes of the previous frame are silently
discarded. -/
theorem c10_single_outgoing_kiss :
    (∀ tnc k, (kissToHost tnc k).outgoingKiss = some (k, 0)) ∧
    (∀ tnc lsf, tnc.ptt = false → lsfMode lsf = .stream →
      handleFrame tnc (.lsf lsf) =
        some { tnc with
          outgoingKiss := some (newStreamSetup lsf, 0)
          state := .rxStream ⟨lsf, 0⟩ }) ∧
    (∀ tnc k, tnc.outgoingKiss = some (k, 0) →
      (readKiss tnc k.length).2 = k ∧ (readKiss tnc k.length).1.outgoingKiss = none) := by
  refine ⟨fun tnc k => rfl, fun tnc lsf hptt hmode => ?_, fun tnc k h => ?_⟩
  · unfold handleFrame
    simp [hmode, hptt, kissToHost]
  · unfold readKiss
    rw [h]
    simp

/-- Witness for `c10_single_outgoing_kiss`: a TNC holding an undelivered
outgoing frame `[1, 2, 3]` has it silently replaced by the stream-setup frame
for `c5BadLsf`, and `read_kiss` then yields only the new frame. -/
theorem c10_single_outgoing_kiss_witness :
    ({ SoftTnc.new with outgoingKiss := some ([1, 2, 3], 1) } : SoftTnc).ptt = false ∧
    lsfMode c5BadLsf = .stream ∧
    handleFrame { SoftTnc.new with outgoingKiss := some ([1, 2, 3], 1) } (.lsf c5BadLsf) =
      some { SoftTnc.new with
        outgoingKiss := some (newStreamSetup c5BadLsf, 0)
        state := .rxStream ⟨c5BadLsf, 0⟩ } ∧
    (readKiss { SoftTnc.new with outgoingKiss := some (newStreamSetup c5BadLsf, 0) }
      (newStreamSetup c5BadLsf).length).2 = newStreamSetup c5BadLsf := by
  refine ⟨rfl, by decide, ?_, ?_⟩
  · exact c10_single_outgoing_kiss.2.1 _ c5BadLsf rfl (by decide)
  · exact (c10_single_outgoing_kiss.2.2 _ _ rfl).1

/-- Claim C4: `VoiceToRf::next` never advances `lich_cnt` — the struct comment
says it is "which LICH part we are going to emit next, 0-5" and the spec says
it advances mod 6 per datagram, but the code only ever resets it to 0 on an
LSF change.  Feeding the same Voice datagram twice yields `lich_idx = 0` both
times, where the claim requires the second frame to carry `lich_idx = 1`. -/
theorem c4_lich_counter_never_advances :
    (voiceToRfNext VoiceToRf.new voiceNew).2.1.isSome = true ∧
    (voiceToRfNext VoiceToRf.new voiceNew).2.2.lichIdx = 0 ∧
    (voiceToRfNext (voiceToRfNext VoiceToRf.new voiceNew).1 voiceNew).2.1 = none ∧
    (voiceToRfNext (voiceToRfNext VoiceToRf.new voiceNew).1 voiceNew).2.2.lichIdx = 0 := by
  decide

theorem asProto_len (pt : PacketType) :
    1 ≤ (asProto pt).2 ∧ (asProto pt).2 ≤ 4 ∧ ((asProto pt).1.take (asProto pt).2).length =
      (asProto pt).2 := by
  have hutf : ∀ c, 1 ≤ (utf8Encode c).length ∧ (utf8Encode c).length ≤ 4 := by
    intro c
    unfold utf8Encode
    split_ifs <;> simp
  cases pt <;> simp [asProto]
  case other c =>
    obtain ⟨h1, h4⟩ := hutf c
    omega

/-- Claim C9: `transmit_packet` fails exactly when
`type_prefix_len + payload_len > 823`, in which case it returns
`PacketTooLarge{provided = payload_len, capacity = 823 - type_prefix_len}` and
sends nothing; otherwise it sends the full-packet KISS frame composed of the
LSF and `type_prefix ∥ payload ∥ CRC16` and returns Ok. -/
theorem c9_transmit_packet (lsf : List Nat) (pt : PacketType) (payload : List Nat)
    (hlsf : lsf.length = 30) :
    (transmitPacket lsf pt payload =
        some (.error (payload.length, 823 - (asProto pt).2)) ↔
      (asProto pt).2 + payload.length > 823) ∧
    ((asProto pt).2 + payload.length ≤ 823 →
      transmitPacket lsf pt payload =
        some (.ok ([FEND, kissHeader 1 0] ++ escape lsf ++
          escape ((asProto pt).1.take (asProto pt).2 ++ payload ++
            [m17Crc ((asProto pt).1.take (asProto pt).2 ++ payload) >>> 8,
              m17Crc ((asProto pt).1.take (asProto pt).2 ++ payload) &&& 255]) ++
          [FEND]))) := by
  obtain ⟨hp1, hp4, hplen⟩ := asProto_len pt
  by_cases hbig : (asProto pt).2 + payload.length > 823
  · constructor
    · rw [transmitPacket, if_pos hbig]
      simp [hbig]
    · omega
  · have hle : (asProto pt).2 + payload.length ≤ 823 := by omega
    have hframe : newFullPacket lsf
        ((asProto pt).1.take (asProto pt).2 ++ payload ++
          [m17Crc ((asProto pt).1.take (asProto pt).2 ++ payload) >>> 8,
            m17Crc ((asProto pt).1.take (asProto pt).2 ++ payload) &&& 255]) =
        some ([FEND, kissHeader 1 0] ++ escape lsf ++
          escape ((asProto pt).1.take (asProto pt).2 ++ payload ++
            [m17Crc ((asProto pt).1.take (asProto pt).2 ++ payload) >>> 8,
              m17Crc ((asProto pt).1.take (asProto pt).2 ++ payload) &&& 255]) ++
          [FEND]) := by
      rw [newFullPacket, if_neg (by omega), if_neg (by simp [hplen]; omega)]
    constructor
    · rw [transmitPacket, if_neg (by omega)]
      simp only []
      rw [hframe]
      simp [hbig]
    · intro _
      rw [transmitPacket, if_neg (by omega)]
      simp only []
      rw [hframe]

/-- Witness for `c9_transmit_packet`: an 824-byte RAW payload overflows the
823-byte budget by one byte and is rejected with capacity 822. -/
theorem c9_transmit_packet_witness :
    (List.replicate 30 (0 : Nat)).length = 30 ∧
    (asProto .raw).2 + (List.replicate 824 (0 : Nat)).length > 823 ∧
    transmitPacket (List.replicate 30 0) .raw (List.replicate 824 0) =
      some (.error (824, 822)) := by
  refine ⟨by decide, by decide, ?_⟩
  have h := (c9_transmit_packet (List.replicate 30 0) .raw (List.replicate 824 0)
    (by decide)).1.mpr (by decide)
  simpa using h

theorem tOut_eq_stepOut : ∀ t < 32, tOut t = stepOut (tIn t) (tSrc t) := by
  decide

theorem trans_of_in_src : ∀ t < 32, t = (if tIn t then 16 else 0) + tSrc t := by
  decide

theorem nextState_lt : ∀ s < 16, ∀ b : Bool, nextState b s < 16 := by
  decide

theorem trueT_split : ∀ s < 16, ∀ b : Bool,
    (if b then 16 else 0) + s = nextState b s * 2 ∨
      (if b then 16 else 0) + s = nextState b s * 2 + 1 := by
  decide

theorem stateAt_lt (w : List Bool) (i : Nat) : stateAt w i < 16 := by
  induction i with
  | zero => simp [stateAt, stateIter]
  | succ j ih => exact nextState_lt _ ih _

theorem trueT_lt (w : List Bool) (i : Nat) : trueT w i < 32 := by
  have := stateAt_lt w i
  unfold trueT
  cases bitAt w i <;> (simp; try omega)

theorem tSrc_trueT (w : List Bool) (i : Nat) : tSrc (trueT w i) = stateAt w i := by
  have := stateAt_lt w i
  unfold trueT tSrc
  cases bitAt w i <;> (simp; try omega)

theorem tIn_trueT (w : List Bool) (i : Nat) : tIn (trueT w i) = bitAt w i := by
  have := stateAt_lt w i
  unfold trueT tIn
  cases bitAt w i <;> (simp; try omega)

theorem tOut_trueT (w : List Bool) (i : Nat) :
    tOut (trueT w i) = stepOut (bitAt w i) (stateAt w i) := by
  rw [tOut_eq_stepOut _ (trueT_lt w i), tIn_trueT, tSrc_trueT]

theorem trueT_succ_pair (w : List Bool) (i : Nat) :
    trueT w i = stateAt w (i + 1) * 2 ∨ trueT w i = stateAt w (i + 1) * 2 + 1 := by
  have h := trueT_split (stateAt w i) (stateAt_lt w i) (bitAt w i)
  unfold trueT
  have hs : stateAt w (i + 1) = nextState (bitAt w i) (stateAt w i) := rfl
  rw [hs]
  exact h

theorem trueT_of_in_src (w : List Bool) (i t : Nat) (ht : t < 32)
    (hsrc : tSrc t = stateAt w i) (hin : tIn t = bitAt w i) : t = trueT w i := by
  have := trans_of_in_src t ht
  unfold trueT
  rw [← hsrc, ← hin]
  exact this

/-! ### Hamming facts -/

theorem hamming_self : ∀ x : List Bool, hamming x x = 0 := by
  intro x
  induction x with
  | nil => rfl
  | cons a l ih => simp [hamming, ih]

theorem tOffer_eq_punctOut (pr : Bool × Bool) (h : pr.1 = true ∨ pr.2 = true)
    (o : Bool × Bool) : tOffer pr o = punctOut pr o := by
  obtain ⟨a, b⟩ := pr
  cases a <;> cases b <;> simp_all [tOffer, punctOut]

theorem punctOut_length (pr : Bool × Bool) (h : pr.1 = true ∨ pr.2 = true)
    (o : Bool × Bool) : (punctOut pr o).length = readCount pr := by
  obtain ⟨a, b⟩ := pr
  cases a <;> cases b <;> simp_all [punctOut, readCount]

theorem convG1_flip (b : Bool) (s : Nat) : convG1 (!b) s = !(convG1 b s) := by
  unfold convG1
  cases b <;> cases s.testBit 1 <;> cases s.testBit 0 <;> rfl

theorem convG2_flip (b : Bool) (s : Nat) : convG2 (!b) s = !(convG2 b s) := by
  unfold convG2
  cases b <;> cases s.testBit 3 <;> cases s.testBit 2 <;> cases s.testBit 0 <;> rfl

/-- A transition from the right state but with the wrong input bit disagrees
with the observation in every kept position, so its step distance is at
least 1. -/
theorem hamming_wrong_input (pr : Bool × Bool) (h : pr.1 = true ∨ pr.2 = true)
    (b b' : Bool) (s : Nat) (hne : b ≠ b') :
    1 ≤ hamming (punctOut pr (stepOut b s)) (tOffer pr (stepOut b' s)) := by
  have hb : b' = !b := by cases b <;> cases b' <;> simp_all
  subst hb
  obtain ⟨a, c⟩ := pr
  have h1 := convG1_flip b s
  have h2 := convG2_flip b s
  cases a <;> cases c <;> simp_all [punctOut, tOffer, stepOut, hamming]

/-! ### The encoder's output seen through the decoder's reads -/

theorem bitAt_cons_succ (b : Bool) (rest : List Bool) (k : Nat) :
    bitAt (b :: rest) (k + 1) = bitAt rest k := rfl

theorem stateIter_cons (s : Nat) (b : Bool) (rest : List Bool) :
    ∀ j, stateIter s (b :: rest) (j + 1) = stateIter (nextState b s) rest j := by
  intro j
  induction j with
  | zero => rfl
  | succ k ih =>
    show nextState (bitAt (b :: rest) (k + 1)) (stateIter s (b :: rest) (k + 1)) = _
    rw [ih, bitAt_cons_succ]
    rfl

theorem encodeSteps_length (p : Nat → Bool × Bool)
    (hp : ∀ i, (p i).1 = true ∨ (p i).2 = true) :
    ∀ (w : List Bool) (i0 s : Nat),
      (encodeSteps p i0 s w).length = offsetFrom p i0 w.length := by
  intro w
  induction w with
  | nil => intro i0 s; rfl
  | cons b rest ih =>
    intro i0 s
    show (punctOut (p i0) (stepOut b s) ++ _).length = _
    rw [List.length_append, punctOut_length (p i0) (hp i0), ih (i0 + 1) (nextState b s)]
    rfl

theorem enc_extract (p : Nat → Bool × Bool)
    (hp : ∀ i, (p i).1 = true ∨ (p i).2 = true) :
    ∀ (w : List Bool) (i0 s j : Nat), j < w.length → ∀ (extra : List Bool),
      ((encodeSteps p i0 s w ++ extra).drop (offsetFrom p i0 j)).take
          (readCount (p (i0 + j))) =
        punctOut (p (i0 + j)) (stepOut (bitAt w j) (stateIter s w j)) := by
  intro w
  induction w with
  | nil => intro i0 s j hj; simp at hj
  | cons b rest ih =>
    intro i0 s j hj extra
    have hlen := punctOut_length (p i0) (hp i0) (stepOut b s)
    cases j with
    | zero =>
      show ((punctOut (p i0) (stepOut b s) ++
          encodeSteps p (i0 + 1) (nextState b s) rest ++ extra).drop 0).take
          (readCount (p (i0 + 0))) = _
      simp only [Nat.add_zero, List.drop_zero, List.append_assoc]
      rw [← hlen, List.take_left]
      rfl
    | succ k =>
      show ((punctOut (p i0) (stepOut b s) ++
          encodeSteps p (i0 + 1) (nextState b s) rest ++ extra).drop
            (readCount (p i0) + offsetFrom p (i0 + 1) k)).take
          (readCount (p (i0 + (k + 1)))) = _
      rw [List.append_assoc, ← hlen, List.drop_append]
      have harg : i0 + (k + 1) = (i0 + 1) + k := by omega
      rw [harg]
      rw [ih (i0 + 1) (nextState b s) k (by simpa using hj) extra]
      rw [bitAt_cons_succ, stateIter_cons]

theorem obsAt_fecEncode (p : Nat → Bool × Bool)
    (hp : ∀ i, (p i).1 = true ∨ (p i).2 = true)
    (u extra : List Bool) (j : Nat) (hj : j < u.length + 4) :
    obsAt p (fecEncodeBits p u ++ extra) j =
      punctOut (p j) (stepOut (bitAt (flush4 u) j) (stateAt (flush4 u) j)) := by
  unfold obsAt fecEncodeBits stateAt flush4
  have h := enc_extract p hp (u ++ [false, false, false, false]) 0 0 j
    (by simpa using hj) extra
  simpa using h

/-! ### Correctness of the Viterbi decode on a clean channel -/

theorem one_le_satAdd_left (a b : Nat) (h : 1 ≤ a) : 1 ≤ satAdd a b := by
  unfold satAdd
  omega

theorem one_le_satAdd_right (a b : Nat) (h : 1 ≤ b) : 1 ≤ satAdd a b := by
  unfold satAdd
  omega

theorem tSrc_lt (t : Nat) : tSrc t < 16 :=
  Nat.mod_lt t (by omega)

/-- On a noise-free channel, the Viterbi table scores the true transition 0 at
every step and every competing transition at least 1: a competitor diverging
from the true path first does so at a step where it consumes a different input
bit from the same state, which flips every surviving output bit. -/
theorem vcol_invariant (p : Nat → Bool × Bool) (obs : Nat → List Bool)
    (w : List Bool) (last : Nat)
    (hp : ∀ i, (p i).1 = true ∨ (p i).2 = true)
    (hobs : ∀ j, j ≤ last →
      obs j = punctOut (p j) (stepOut (bitAt w j) (stateAt w j))) :
    ∀ step, step ≤ last →
      vcol p obs step (trueT w step) = 0 ∧
      (∀ t, t < 32 → t ≠ trueT w step → 1 ≤ vcol p obs step t) := by
  intro step
  induction step with
  | zero =>
    intro hle
    constructor
    · show satAdd (bestPrev0 (tSrc (trueT w 0))) _ = 0
      rw [tSrc_trueT]
      rw [show stateAt w 0 = 0 from rfl]
      rw [hobs 0 hle, tOut_trueT, tOffer_eq_punctOut _ (hp 0), hamming_self]
      rfl
    · intro t ht hne
      show 1 ≤ satAdd (bestPrev0 (tSrc t)) (hamming (obs 0) (tOffer (p 0) (tOut t)))
      by_cases hsrc : tSrc t = stateAt w 0
      · have hin : tIn t ≠ bitAt w 0 := fun hin2 =>
          hne (trueT_of_in_src w 0 t ht hsrc hin2)
        apply one_le_satAdd_right
        rw [hobs 0 hle, tOut_eq_stepOut t ht, hsrc]
        exact hamming_wrong_input (p 0) (hp 0) _ _ _ (Ne.symm hin)
      · apply one_le_satAdd_left
        have hz : tSrc t ≠ 0 := by
          rwa [show stateAt w 0 = 0 from rfl] at hsrc
        unfold bestPrev0
        rw [if_neg hz]
        omega
  | succ step ih =>
    intro hle
    obtain ⟨ihTrue, ihOther⟩ := ih (by omega)
    constructor
    · show satAdd (min (vcol p obs step (tSrc (trueT w (step + 1)) * 2))
          (vcol p obs step (tSrc (trueT w (step + 1)) * 2 + 1))) _ = 0
      rw [tSrc_trueT]
      have hmin : min (vcol p obs step (stateAt w (step + 1) * 2))
          (vcol p obs step (stateAt w (step + 1) * 2 + 1)) = 0 := by
        rcases trueT_succ_pair w step with h | h
        · rw [← h, ihTrue]
          exact Nat.zero_min _
        · rw [← h, ihTrue]
          exact Nat.min_zero _
      rw [hmin, hobs (step + 1) hle, tOut_trueT, tOffer_eq_punctOut _ (hp (step + 1)),
        hamming_self]
      rfl
    · intro t ht hne
      show 1 ≤ satAdd (min (vcol p obs step (tSrc t * 2)) (vcol p obs step (tSrc t * 2 + 1)))
        (hamming (obs (step + 1)) (tOffer (p (step + 1)) (tOut t)))
      by_cases hsrc : tSrc t = stateAt w (step + 1)
      · have hin : tIn t ≠ bitAt w (step + 1) := fun hin2 =>
          hne (trueT_of_in_src w (step + 1) t ht hsrc hin2)
        apply one_le_satAdd_right
        rw [hobs (step + 1) hle, tOut_eq_stepOut t ht, hsrc]
        exact hamming_wrong_input (p (step + 1)) (hp (step + 1)) _ _ _ (Ne.symm hin)
      · apply one_le_satAdd_left
        have hpair := trueT_succ_pair w step
        have h1 : tSrc t * 2 ≠ trueT w step := by omega
        have h2 : tSrc t * 2 + 1 ≠ trueT w step := by omega
        have hlt := tSrc_lt t
        have ha := ihOther (tSrc t * 2) (by omega) h1
        have hb := ihOther (tSrc t * 2 + 1) (by omega) h2
        omega

theorem firstMinIdx_lt (f : Nat → Nat) : ∀ n, 0 < n → firstMinIdx f n < n := by
  intro n
  induction n with
  | zero => omega
  | succ m ih =>
    intro _
    cases m with
    | zero => simp [firstMinIdx]
    | succ k =>
      show (let prev := firstMinIdx f (k + 1)
        if f (k + 1) < f prev then k + 1 else prev) < k + 2
      have := ih (by omega)
      dsimp only
      split_ifs <;> omega

theorem firstMinIdx_unique (f : Nat → Nat) : ∀ (n t0 : Nat), t0 < n →
    (∀ t, t < n → t ≠ t0 → f t0 < f t) → firstMinIdx f n = t0 := by
  intro n
  induction n with
  | zero => intro t0 h; omega
  | succ m ih =>
    intro t0 ht0 hmin
    cases m with
    | zero =>
      have : t0 = 0 := by omega
      subst this
      rfl
    | succ k =>
      show (let prev := firstMinIdx f (k + 1)
        if f (k + 1) < f prev then k + 1 else prev) = t0
      dsimp only
      by_cases hcase : t0 = k + 1
      · subst hcase
        have hprevlt := firstMinIdx_lt f (k + 1) (by omega)
        have := hmin (firstMinIdx f (k + 1)) (by omega) (by omega)
        rw [if_pos this]
      · have hprev : firstMinIdx f (k + 1) = t0 :=
          ih t0 (by omega) (fun t htk hne => hmin t (by omega) hne)
        rw [hprev]
        have := hmin (k + 1) (by omega) (by omega)
        rw [if_neg (by omega)]

theorem chosen_eq_trueT (p : Nat → Bool × Bool) (obs : Nat → List Bool)
    (w : List Bool) (last : Nat)
    (hp : ∀ i, (p i).1 = true ∨ (p i).2 = true)
    (hobs : ∀ j, j ≤ last →
      obs j = punctOut (p j) (stepOut (bitAt w j) (stateAt w j))) :
    ∀ k, k ≤ last → chosen p obs last k = trueT w (last - k) := by
  have hinv := vcol_invariant p obs w last hp hobs
  intro k
  induction k with
  | zero =>
    intro _
    show firstMinIdx (vcol p obs last) 32 = trueT w last
    have h := hinv last (Nat.le_refl _)
    apply firstMinIdx_unique _ 32 _ (trueT_lt _ _)
    intro t ht hne
    rw [h.1]
    exact h.2 t ht hne
  | succ k ih =>
    intro hk
    have hco := ih (by omega)
    show tracePrev p obs (last - k - 1) (chosen p obs last k) = trueT w (last - (k + 1))
    rw [hco]
    set i := last - k - 1 with hi
    have hik : last - k = i + 1 := by omega
    have hik2 : last - (k + 1) = i := by omega
    rw [hik, hik2]
    unfold tracePrev
    rw [tSrc_trueT]
    obtain ⟨hT, hO⟩ := hinv i (by omega)
    have hslt := stateAt_lt w (i + 1)
    rcases trueT_succ_pair w i with h | h
    · have h0 : vcol p obs i (stateAt w (i + 1) * 2) = 0 := by rw [← h]; exact hT
      have h1 : 1 ≤ vcol p obs i (stateAt w (i + 1) * 2 + 1) :=
        hO _ (by omega) (by omega)
      rw [if_pos (by omega)]
      omega
    · have h0 : vcol p obs i (stateAt w (i + 1) * 2 + 1) = 0 := by rw [← h]; exact hT
      have h1 : 1 ≤ vcol p obs i (stateAt w (i + 1) * 2) :=
        hO _ (by omega) (by omega)
      rw [if_neg (by omega)]
      omega

/-- Bit-level FEC round trip: decoding the encoder's output (with any trailing
garbage bits, which the decoder never reads) recovers the input bits, padded
to the 240-bit zero-initialised output buffer. -/
theorem fecDecodeBits_fecEncodeBits (p : Nat → Bool × Bool)
    (hp : ∀ i, (p i).1 = true ∨ (p i).2 = true) (u extra : List Bool) :
    fecDecodeBits p (fecEncodeBits p u ++ extra) u.length =
      some ((List.range 240).map (fun i => bitAt u i)) := by
  have hobs : ∀ j, j ≤ u.length + 3 →
      obsAt p (fecEncodeBits p u ++ extra) j =
        punctOut (p j) (stepOut (bitAt (flush4 u) j) (stateAt (flush4 u) j)) :=
    fun j hj => obsAt_fecEncode p hp u extra j (by omega)
  obtain ⟨htrue, hothers⟩ := vcol_invariant p (obsAt p (fecEncodeBits p u ++ extra))
    (flush4 u) (u.length + 3) hp hobs (u.length + 3) (Nat.le_refl _)
  have hfirst : firstMinIdx
      (vcol p (obsAt p (fecEncodeBits p u ++ extra)) (u.length + 3)) 32 =
      trueT (flush4 u) (u.length + 3) := by
    apply firstMinIdx_unique _ 32 _ (trueT_lt _ _)
    intro t ht hne
    rw [htrue]
    exact hothers t ht hne
  have hchosen := chosen_eq_trueT p (obsAt p (fecEncodeBits p u ++ extra))
    (flush4 u) (u.length + 3) hp hobs
  unfold fecDecodeBits
  rw [if_neg (by rw [hfirst, htrue]; omega)]
  congr 1
  apply List.map_congr_left
  intro i hi
  by_cases hin : i < u.length
  · rw [if_pos hin, hchosen (u.length + 3 - i) (by omega)]
    rw [show u.length + 3 - (u.length + 3 - i) = i by omega, tIn_trueT]
    unfold flush4 bitAt
    rw [List.getD_append _ _ _ _ hin]
  · rw [if_neg hin]
    unfold bitAt
    rw [List.getD_eq_default _ _ (by omega)]

/-! ### Byte/bit conversions -/

theorem bytesToBits_length (bs : List Nat) : (bytesToBits bs).length = 8 * bs.length := by
  induction bs with
  | nil => rfl
  | cons b rest ih =>
    simp only [bytesToBits, List.flatMap_cons] at ih ⊢
    simp [byteBits, List.length_append]
    simp at ih
    omega

theorem bitsToByte_byteBits : ∀ b < 256, bitsToByte (byteBits b) = b := by
  decide

theorem byteBits_bitsToByte (c : List Bool) (hc : c.length = 8) :
    byteBits (bitsToByte c) = c := by
  match c, hc with
  | [a, b, c0, d, e, f, g, h], _ =>
    cases a <;> cases b <;> cases c0 <;> cases d <;> cases e <;> cases f <;>
      cases g <;> cases h <;> decide

theorem bitsToBytes_nil : bitsToBytes [] = [] := by
  simp [bitsToBytes]

theorem bitsToBytes_chunk8 (c : List Bool) (hc : c.length = 8) (r : List Bool) :
    bitsToBytes (c ++ r) = bitsToByte c :: bitsToBytes r := by
  match c, hc with
  | [a, b, c0, d, e, f, g, h], _ =>
    rw [show ([a, b, c0, d, e, f, g, h] ++ r) = a :: ([b, c0, d, e, f, g, h] ++ r) from rfl,
      bitsToBytes]
    simp

theorem bytesToBits_bitsToBytes : ∀ (n : Nat) (x : List Bool), x.length = 8 * n →
    bytesToBits (bitsToBytes x) = x := by
  intro n
  induction n with
  | zero =>
    intro x hx
    have : x = [] := List.eq_nil_of_length_eq_zero (by omega)
    subst this
    simp [bitsToBytes_nil, bytesToBits]
  | succ m ih =>
    intro x hx
    have hsplit := (List.take_append_drop 8 x).symm
    rw [hsplit, bitsToBytes_chunk8 (x.take 8) (by rw [List.length_take]; omega)]
    simp only [bytesToBits, List.flatMap_cons]
    rw [byteBits_bitsToByte _ (by rw [List.length_take]; omega)]
    have ihx := ih (x.drop 8) (by rw [List.length_drop]; omega)
    simp only [bytesToBits] at ihx
    rw [ihx]

theorem bitsToBytes_bytesToBits (l : List Nat) (hb : ∀ b ∈ l, b < 256) :
    bitsToBytes (bytesToBits l) = l := by
  induction l with
  | nil => simp [bytesToBits, bitsToBytes_nil]
  | cons b rest ih =>
    simp only [bytesToBits, List.flatMap_cons]
    rw [bitsToBytes_chunk8 (byteBits b) (by simp [byteBits])]
    rw [bitsToByte_byteBits b (hb b (by simp))]
    have := ih (fun x hx => hb x (by simp [hx]))
    simp only [bytesToBits] at this
    rw [this]

theorem bitsToBytes_append_mul8 : ∀ (n : Nat) (x r : List Bool), x.length = 8 * n →
    bitsToBytes (x ++ r) = bitsToBytes x ++ bitsToBytes r := by
  intro n
  induction n with
  | zero =>
    intro x r hx
    have : x = [] := List.eq_nil_of_length_eq_zero (by omega)
    subst this
    simp [bitsToBytes_nil]
  | succ m ih =>
    intro x r hx
    have hsplit := (List.take_append_drop 8 x).symm
    rw [hsplit, List.append_assoc,
      bitsToBytes_chunk8 (x.take 8) (by rw [List.length_take]; omega),
      bitsToBytes_chunk8 (x.take 8) (by rw [List.length_take]; omega),
      ih (x.drop 8) r (by rw [List.length_drop]; omega)]
    rfl

theorem map_range_bitAt (l : List Bool) (m : Nat) (h : l.length ≤ m) :
    (List.range m).map (fun i => bitAt l i) = l ++ List.replicate (m - l.length) false := by
  apply List.ext_getElem
  · simp
    omega
  · intro i h1 h2
    simp only [List.getElem_map, List.getElem_range]
    by_cases hi : i < l.length
    · rw [List.getElem_append_left hi]
      unfold bitAt
      exact List.getD_eq_getElem l false hi
    · rw [List.getElem_append_right (by omega)]
      simp only [List.getElem_replicate]
      unfold bitAt
      exact List.getD_eq_default l false (by omega)

/-! ### Byte-level FEC round trips for the three schedules -/

theorem p1_emits : ∀ i, (p1 i).1 = true ∨ (p1 i).2 = true := by
  have h : ∀ m < 61, ∀ i, i % 61 = m → (p1 i).1 = true ∨ (p1 i).2 = true := by
    intro m hm i hi
    unfold p1
    rw [hi]
    rcases Nat.lt_or_ge m 31 with h1 | h1
    · rcases Nat.lt_or_ge m 30 with h2 | h2
      · right; simp; omega
      · left; simp; omega
    · left; simp; omega
  intro i
  exact h (i % 61) (Nat.mod_lt _ (by omega)) i rfl

theorem p2_emits : ∀ i, (p2 i).1 = true ∨ (p2 i).2 = true := by
  intro i
  left
  rfl

theorem p3_emits : ∀ i, (p3 i).1 = true ∨ (p3 i).2 = true := by
  intro i
  left
  rfl

theorem offsetFrom_p1_total : offsetFrom p1 0 244 = 368 := by decide

theorem offsetFrom_p2_total : offsetFrom p2 0 148 = 272 := by decide

theorem offsetFrom_p3_total : offsetFrom p3 0 210 = 368 := by decide

/-- Core byte-level round trip: for a schedule that emits at least one bit per
step and a bit length that fits the 46-byte output buffer, byte-level decode
of byte-level encode recovers the first `inputLen` input bits in the 240-bit
zero-initialised output. -/
theorem fecBytes_roundtrip_core (p : Nat → Bool × Bool)
    (hp : ∀ i, (p i).1 = true ∨ (p i).2 = true) (type1 : List Nat) (inputLen : Nat)
    (hlen : inputLen ≤ 8 * type1.length)
    (htot : offsetFrom p 0 (inputLen + 4) ≤ 368) :
    (fecEncodeBytes type1 inputLen p).bind (fun e => fecDecodeBytes e inputLen p) =
      some (bitsToBytes ((List.range 240).map
        (fun i => bitAt ((bytesToBits type1).take inputLen) i))) := by
  have hulen : ((bytesToBits type1).take inputLen).length = inputLen := by
    rw [List.length_take, bytesToBits_length]
    omega
  have hblen : (fecEncodeBits p ((bytesToBits type1).take inputLen)).length =
      offsetFrom p 0 (inputLen + 4) := by
    unfold fecEncodeBits
    rw [encodeSteps_length p hp]
    simp [hulen]
  have hrt := fecDecodeBits_fecEncodeBits p hp ((bytesToBits type1).take inputLen)
    (List.replicate
      (368 - (fecEncodeBits p ((bytesToBits type1).take inputLen)).length) false)
  rw [hulen] at hrt
  unfold fecEncodeBytes
  rw [if_pos (by rw [hblen]; exact htot)]
  rw [Option.some_bind]
  unfold fecDecodeBytes
  rw [bytesToBits_bitsToBytes 46 _ (by simp [hblen]; omega)]
  rw [hrt]
  rfl

theorem bitsToBytes_replicate_false : ∀ n, bitsToBytes (List.replicate (8 * n) false) = List.replicate n 0 := by
  intro n
  induction n with
  | zero => simp [bitsToBytes_nil]
  | succ m ih =>
    have hsplit : List.replicate (8 * (m + 1)) false =
        List.replicate 8 false ++ List.replicate (8 * m) false := by
      rw [← List.replicate_add]
      congr 1
      omega
    rw [hsplit, bitsToBytes_chunk8 _ (by simp), ih]
    rfl

/-- `fec.rs` round trip for the LSF configuration: a 30-byte payload at 240
bits through schedule P1 decodes to exactly the payload. -/
theorem fec_roundtrip_p1 (payload : List Nat) (hlen : payload.length = 30)
    (hb : ∀ b ∈ payload, b < 256) :
    (fecEncodeBytes payload 240 p1).bind (fun e => fecDecodeBytes e 240 p1) =
      some payload := by
  rw [fecBytes_roundtrip_core p1 p1_emits payload 240 (by omega)
    (by rw [offsetFrom_p1_total])]
  have hfull : (bytesToBits payload).take 240 = bytesToBits payload :=
    List.take_of_length_le (by rw [bytesToBits_length]; omega)
  rw [hfull, map_range_bitAt _ _ (by rw [bytesToBits_length]; omega)]
  rw [bytesToBits_length, hlen]
  norm_num
  exact bitsToBytes_bytesToBits payload hb

/-- `fec.rs` round trip for the stream configuration: an 18-byte payload at
144 bits through schedule P2 decodes to the payload padded to the 30-byte
output buffer. -/
theorem fec_roundtrip_p2 (payload : List Nat) (hlen : payload.length = 18)
    (hb : ∀ b ∈ payload, b < 256) :
    (fecEncodeBytes payload 144 p2).bind (fun e => fecDecodeBytes e 144 p2) =
      some (payload ++ List.replicate 12 0) := by
  rw [fecBytes_roundtrip_core p2 p2_emits payload 144 (by omega)
    (by rw [offsetFrom_p2_total]; omega)]
  have hfull : (bytesToBits payload).take 144 = bytesToBits payload :=
    List.take_of_length_le (by rw [bytesToBits_length]; omega)
  rw [hfull, map_range_bitAt _ _ (by rw [bytesToBits_length]; omega)]
  rw [bytesToBits_length, hlen]
  rw [bitsToBytes_append_mul8 18 _ _ (by rw [bytesToBits_length]; omega)]
  rw [bitsToBytes_bytesToBits payload hb]
  norm_num
  rw [show (96 : Nat) = 8 * 12 by norm_num, bitsToBytes_replicate_false]

/-- `fec.rs` round trip for the packet configuration: a 26-byte payload at
206 bits through schedule P3 decodes to the payload with the two unencoded
low bits of byte 25 cleared, padded to 30 bytes. -/
theorem fec_roundtrip_p3 (payload : List Nat) (hlen : payload.length = 26)
    (hb : ∀ b ∈ payload, b < 256) :
    (fecEncodeBytes payload 206 p3).bind (fun e => fecDecodeBytes e 206 p3) =
      some (payload.take 25 ++ [payload.getD 25 0 &&& 0xFC] ++ List.replicate 4 0) := by
  have hb25 : payload.getD 25 0 < 256 := getD_lt_of_mem_lt payload 25 (by omega) hb
  have hdrop : payload.drop 25 = [payload.getD 25 0] := by
    rw [List.drop_eq_getElem_cons (by omega : 25 < payload.length)]
    rw [List.drop_eq_nil_of_le (by omega)]
    rw [List.getD_eq_getElem payload 0 (by omega)]
  have hsplit : payload = payload.take 25 ++ [payload.getD 25 0] := by
    rw [← hdrop, List.take_append_drop]
  have htk25 : (payload.take 25).length = 25 := by rw [List.length_take]; omega
  have hbits : bytesToBits payload =
      bytesToBits (payload.take 25) ++ byteBits (payload.getD 25 0) := by
    conv_lhs => rw [hsplit]
    rw [show bytesToBits (payload.take 25 ++ [payload.getD 25 0]) =
      bytesToBits (payload.take 25) ++ bytesToBits [payload.getD 25 0] by
        simp [bytesToBits]]
    simp [bytesToBits]
  have hxlen : (bytesToBits (payload.take 25)).length = 200 := by
    rw [bytesToBits_length, htk25]
  have hu : (bytesToBits payload).take 206 =
      bytesToBits (payload.take 25) ++ (byteBits (payload.getD 25 0)).take 6 := by
    rw [hbits, show (206 : Nat) = 200 + 6 by norm_num, ← hxlen, List.take_append]
  rw [fecBytes_roundtrip_core p3 p3_emits payload 206 (by omega)
    (by rw [offsetFrom_p3_total])]
  rw [hu, map_range_bitAt _ _ (by simp [hxlen, byteBits])]
  have hulen2 : (bytesToBits (payload.take 25) ++
      (byteBits (payload.getD 25 0)).take 6).length = 206 := by
    simp [hxlen, byteBits]
  rw [hulen2]
  rw [List.append_assoc]
  rw [bitsToBytes_append_mul8 25 _ _ hxlen]
  rw [bitsToBytes_bytesToBits _ (fun x hx => hb x (List.mem_of_mem_take hx))]
  have htail : (byteBits (payload.getD 25 0)).take 6 ++ List.replicate (240 - 206) false =
      ((byteBits (payload.getD 25 0)).take 6 ++ List.replicate 2 false) ++
        List.replicate 32 false := by
    rw [List.append_assoc, ← List.replicate_add]
  rw [htail]
  rw [bitsToBytes_chunk8 _ (by simp [byteBits])]
  have hbyte : ∀ b < 256,
      bitsToByte ((byteBits b).take 6 ++ List.replicate 2 false) = b &&& 0xFC := by
    decide
  rw [hbyte _ hb25]
  rw [show bitsToBytes (List.replicate 32 false) = List.replicate 4 0 by
    rw [show (32 : Nat) = 8 * 4 by norm_num, bitsToBytes_replicate_false]]
  simp

/-- Claim C8 (counterexample): the claim pairs a 30-byte (240-bit) payload
with every schedule, but `fec::encode` of 240 bits under P2 emits 448 type-3
bits, overflowing the 46-byte output buffer: `set_bit` panics (P3 overflows
too).  The model returns `none` at the panic, so `decode(encode(payload))`
is not `Some(payload)` for the P2 and P3 members of the claimed product. -/
theorem c8_p2_at_240_bits_overflows :
    fecEncodeBytes (List.replicate 30 0) 240 p2 = none := by
  decide

/-- Claim C8 (amended): the FEC round trip holds for each schedule at its own
bit length as used by the codebase — P1 with 240 bits of a 30-byte payload,
P2 with 144 bits of an 18-byte payload, P3 with 206 bits of a 26-byte
payload — with the decoder returning the payload zero-padded to its 30-byte
output buffer (for P3, the two unencoded low bits of byte 25 read back as
zero). -/
theorem c8_fec_roundtrip (payload : List Nat) (hb : ∀ b ∈ payload, b < 256) :
    (payload.length = 30 →
      (fecEncodeBytes payload 240 p1).bind (fun e => fecDecodeBytes e 240 p1) =
        some payload) ∧
    (payload.length = 18 →
      (fecEncodeBytes payload 144 p2).bind (fun e => fecDecodeBytes e 144 p2) =
        some (payload ++ List.replicate 12 0)) ∧
    (payload.length = 26 →
      (fecEncodeBytes payload 206 p3).bind (fun e => fecDecodeBytes e 206 p3) =
        some (payload.take 25 ++ [payload.getD 25 0 &&& 0xFC] ++
          List.replicate 4 0)) :=
  ⟨fun h => fec_roundtrip_p1 payload h hb,
    fun h => fec_roundtrip_p2 payload h hb,
    fun h => fec_roundtrip_p3 payload h hb⟩

/-- Witness for `c8_fec_roundtrip` at the repository's LSF test vector. -/
theorem c8_fec_roundtrip_witness :
    (∀ b ∈ lsfTestVector, b < 256) ∧ lsfTestVector.length = 30 ∧
    (fecEncodeBytes lsfTestVector 240 p1).bind (fun e => fecDecodeBytes e 240 p1) =
      some lsfTestVector :=
  ⟨by decide, by decide, (c8_fec_roundtrip lsfTestVector (by decide)).1 (by decide)⟩

/-- Claim C3: the packet round trip fails.  `encode_packet` writes the counter
byte as `(payload_len << 2) | 0x80` for a final frame (EOF flag in bit 0x80),
while `parse_packet` reads the EOF flag from bit 0x04 and the number from
`byte25 >> 3`.  On the repository's own test vector
`FinalFrame{payload_len: 10}`, the counter byte is 0xA8 and decodes to
`Frame{index: 21}` instead.  The last conjunct confirms via
`fec_roundtrip_p3` that the FEC layer between the two functions carries the
26-byte type-1 buffer (in particular byte 25 = 0xA8) bit-exactly, so the
mismatch survives the full frame pipeline. -/
theorem c3_packet_counter_mismatch :
    encodePacketType1 ⟨List.replicate 25 0, .finalFrame 10⟩ =
      some (List.replicate 25 0 ++ [0xA8]) ∧
    parsePacketFromType1 (List.replicate 25 0 ++ [0xA8]) =
      ⟨List.replicate 25 0, .frame 21⟩ ∧
    parsePacketFromType1 (List.replicate 25 0 ++ [0xA8]) ≠
      ⟨List.replicate 25 0, .finalFrame 10⟩ ∧
    (fecEncodeBytes (List.replicate 25 0 ++ [0xA8]) 206 p3).bind
        (fun e => fecDecodeBytes e 206 p3) =
      some (List.replicate 25 0 ++ [0xA8] ++ List.replicate 4 0) := by
  refine ⟨by decide, by decide, by decide, ?_⟩
  have h := fec_roundtrip_p3 (List.replicate 25 0 ++ [0xA8]) (by decide) (by decide)
  rw [h]
  decide

/-! ### KISS buffer lemmas -/

lemma optSomeBind {α β : Type} (a : α) (f : α → Option β) : (some a).bind f = f a := rfl

lemma optMapSome {α β : Type} (f : α → β) (a : α) : (some a).map f = some (f a) := rfl

lemma head_ne_fend (g : List Nat) (hg : FEND ∉ g) : g.head? ≠ some FEND := by
  cases g with
  | nil => simp
  | cons a t =>
    simp only [List.head?_cons, ne_eq, Option.some.injEq]
    exact fun h => hg (h ▸ List.mem_cons_self a t)

lemma head_ne_fend_append (g1 x : List Nat) (h1 : g1 ≠ []) (h1f : FEND ∉ g1) :
    (g1 ++ x).head? ≠ some FEND := by
  cases g1 with
  | nil => exact absurd rfl h1
  | cons a t =>
    simp only [List.cons_append, List.head?_cons, ne_eq, Option.some.injEq]
    exact fun h => h1f (h ▸ List.mem_cons_self a t)

lemma findIdx_fend_none (l : List Nat) (h : FEND ∉ l) :
    List.findIdx? (fun b => b == FEND) l = none := by
  induction l with
  | nil => rfl
  | cons a t ih =>
    have ha : (a == FEND) = false := by
      simp only [beq_eq_false_iff_ne, ne_eq]
      exact fun hh => h (hh ▸ List.mem_cons_self a t)
    simp [List.findIdx?_cons, ha, ih fun hm => h (List.mem_cons_of_mem a hm)]

lemma findIdx_fend_append (t rest : List Nat) (h : FEND ∉ t) :
    List.findIdx? (fun b => b == FEND) (t ++ FEND :: rest) = some t.length := by
  induction t with
  | nil => simp [List.findIdx?_cons]
  | cons a u ih =>
    have ha : (a == FEND) = false := by
      simp only [beq_eq_false_iff_ne, ne_eq]
      exact fun hh => h (hh ▸ List.mem_cons_self a u)
    simp [List.findIdx?_cons, ha, ih fun hm => h (List.mem_cons_of_mem a hm)]

lemma takeWhile_fend_run (m : Nat) (g : List Nat) (hg : g.head? ≠ some FEND) :
    List.takeWhile (fun b => b == FEND) (List.replicate m FEND ++ g) =
      List.replicate m FEND := by
  induction m with
  | zero =>
    cases g with
    | nil => rfl
    | cons a t =>
      have ha : (a == FEND) = false := by
        simp only [beq_eq_false_iff_ne, ne_eq]
        intro hh
        exact hg (by simp [hh])
      simp [List.takeWhile_cons, ha]
  | succ k ih =>
    simp [List.replicate_succ, List.takeWhile_cons, ih]

lemma skipJunk_fend (rest : List Nat) : skipJunk (FEND :: rest) = FEND :: rest := by
  simp [skipJunk, List.takeWhile_cons]

lemma drop_fend_run (m : Nat) (g : List Nat) :
    (FEND :: (List.replicate m FEND ++ g)).drop m = FEND :: g := by
  induction m with
  | zero => rfl
  | succ k ih =>
    rw [List.replicate_succ]
    show (FEND :: (List.replicate k FEND ++ g)).drop k = FEND :: g
    exact ih

lemma coalesce_run (m : Nat) (g : List Nat) (hg : g.head? ≠ some FEND) :
    coalesceFends (FEND :: (List.replicate m FEND ++ g)) = FEND :: g := by
  unfold coalesceFends
  have h1 : (FEND :: (List.replicate m FEND ++ g)).drop 1 = List.replicate m FEND ++ g := rfl
  rw [h1, takeWhile_fend_run m g hg, List.length_replicate]
  exact drop_fend_run m g

lemma flushFirstFrame_clean (buf : List Nat) :
    flushFirstFrame ⟨buf, false⟩ = some ⟨buf, false⟩ := rfl

lemma frameScan_nofend (g : List Nat) (hg : FEND ∉ g) :
    frameScan (FEND :: g) = (none, ⟨FEND :: g, false⟩) := by
  cases g with
  | nil => rfl
  | cons a t =>
    have ha : a ≠ FEND := fun hh => hg (hh ▸ List.mem_cons_self a t)
    have hfind : findFendFrom2 (FEND :: a :: t) = none := by
      unfold findFendFrom2
      have h2 : (FEND :: a :: t).drop 2 = t := rfl
      rw [h2, findIdx_fend_none t fun hm => hg (List.mem_cons_of_mem a hm)]
      rfl
    unfold frameScan
    rw [if_pos ⟨by simp, rfl, by simpa using ha⟩, hfind]

lemma frameScan_frame (g rest : List Nat) (hne : g ≠ []) (hg : FEND ∉ g) :
    frameScan (FEND :: (g ++ FEND :: rest)) =
      (some (FEND :: (g ++ [FEND])), ⟨FEND :: (g ++ FEND :: rest), true⟩) := by
  obtain ⟨a, t, rfl⟩ := List.exists_cons_of_ne_nil hne
  have ha : a ≠ FEND := fun hh => hg (hh ▸ List.mem_cons_self a t)
  have htf : FEND ∉ t := fun hm => hg (List.mem_cons_of_mem a hm)
  simp only [List.cons_append]
  have hfind : findFendFrom2 (FEND :: a :: (t ++ FEND :: rest)) = some (t.length + 2) := by
    unfold findFendFrom2
    have h2 : (FEND :: a :: (t ++ FEND :: rest)).drop 2 = t ++ FEND :: rest := rfl
    rw [h2, findIdx_fend_append t rest htf]
    rfl
  unfold frameScan
  rw [if_pos ⟨by simp, rfl, by simpa using ha⟩, hfind]
  show (some ((FEND :: a :: (t ++ FEND :: rest)).take (t.length + 2 + 1)),
      (⟨FEND :: a :: (t ++ FEND :: rest), true⟩ : KissBuffer)) = _
  have htake : (FEND :: a :: (t ++ FEND :: rest)).take (t.length + 2 + 1) =
      FEND :: a :: (t ++ [FEND]) := by
    show (FEND :: a :: (t ++ FEND :: rest)).take (t.length + 1 + 1 + 1) = _
    rw [List.take_succ_cons, List.take_succ_cons, List.take_append_eq_append_take,
      List.take_of_length_le (by omega)]
    have hone : t.length + 1 - t.length = 1 := by omega
    rw [hone]
    rfl
  rw [htake]

lemma flushFirstFrame_frame (g rest2 : List Nat) (r : Nat) (hne : g ≠ []) (hg : FEND ∉ g)
    (hh : rest2.head? ≠ some FEND) :
    flushFirstFrame ⟨FEND :: (g ++ FEND :: (List.replicate r FEND ++ rest2)), true⟩ =
      some ⟨FEND :: rest2, false⟩ := by
  obtain ⟨a, t, rfl⟩ := List.exists_cons_of_ne_nil hne
  have htf : FEND ∉ t := fun hm => hg (List.mem_cons_of_mem a hm)
  simp only [List.cons_append]
  have hfind : findFendFrom2
      (FEND :: a :: (t ++ FEND :: (List.replicate r FEND ++ rest2))) =
      some (t.length + 2) := by
    unfold findFendFrom2
    have h2 : (FEND :: a :: (t ++ FEND :: (List.replicate r FEND ++ rest2))).drop 2 =
        t ++ FEND :: (List.replicate r FEND ++ rest2) := rfl
    rw [h2, findIdx_fend_append t _ htf]
    rfl
  have hdrop3 : (FEND :: a :: (t ++ FEND :: (List.replicate r FEND ++ rest2))).drop
      (t.length + 2 + 1) = List.replicate r FEND ++ rest2 := by
    show (FEND :: a :: (t ++ FEND :: (List.replicate r FEND ++ rest2))).drop
      (t.length + 1 + 1 + 1) = _
    rw [List.drop_succ_cons, List.drop_succ_cons, List.drop_append_eq_append_drop,
      List.drop_eq_nil_of_le (by omega)]
    have hone : t.length + 1 - t.length = 1 := by omega
    rw [hone]
    rfl
  have hrun : fendRunAfter
      (FEND :: a :: (t ++ FEND :: (List.replicate r FEND ++ rest2))) (t.length + 2) = r := by
    unfold fendRunAfter
    rw [hdrop3, takeWhile_fend_run r rest2 hh, List.length_replicate]
  have hdrop2 : (FEND :: a :: (t ++ FEND :: (List.replicate r FEND ++ rest2))).drop
      (t.length + 2) = FEND :: (List.replicate r FEND ++ rest2) := by
    show (FEND :: a :: (t ++ FEND :: (List.replicate r FEND ++ rest2))).drop
      (t.length + 1 + 1) = _
    rw [List.drop_succ_cons, List.drop_succ_cons, List.drop_append_eq_append_drop,
      List.drop_length, Nat.sub_self, List.drop_zero, List.nil_append]
  unfold flushFirstFrame
  rw [if_neg (by simp), hfind]
  show some (⟨(FEND :: a :: (t ++ FEND :: (List.replicate r FEND ++ rest2))).drop
    (t.length + 2 + fendRunAfter
      (FEND :: a :: (t ++ FEND :: (List.replicate r FEND ++ rest2))) (t.length + 2)),
    false⟩ : KissBuffer) = _
  rw [hrun, ← List.drop_drop, hdrop2]
  rw [drop_fend_run r rest2]

lemma kissNextFrame_clean_run (m : Nat) (g : List Nat) (hg : g.head? ≠ some FEND) :
    kissNextFrame ⟨FEND :: (List.replicate m FEND ++ g), false⟩ =
      some (frameScan (FEND :: g)) := by
  unfold kissNextFrame
  rw [flushFirstFrame_clean]
  show some (frameScan (coalesceFends (skipJunk (FEND :: (List.replicate m FEND ++ g))))) = _
  rw [skipJunk_fend, coalesce_run m g hg]

lemma kissNextFrame_noframe (m : Nat) (g : List Nat) (hg : FEND ∉ g) :
    kissNextFrame ⟨FEND :: (List.replicate m FEND ++ g), false⟩ =
      some (none, ⟨FEND :: g, false⟩) := by
  rw [kissNextFrame_clean_run m g (head_ne_fend g hg), frameScan_nofend g hg]

lemma kissNextFrame_withframe (m : Nat) (g rest : List Nat) (hne : g ≠ []) (hg : FEND ∉ g) :
    kissNextFrame ⟨FEND :: (List.replicate m FEND ++ (g ++ FEND :: rest)), false⟩ =
      some (some (FEND :: (g ++ [FEND])), ⟨FEND :: (g ++ FEND :: rest), true⟩) := by
  rw [kissNextFrame_clean_run m (g ++ FEND :: rest) (head_ne_fend_append g _ hne hg),
    frameScan_frame g rest hne hg]

lemma kissNextFrame_flush (g rest2 : List Nat) (r : Nat) (hne : g ≠ []) (hg : FEND ∉ g)
    (hh : rest2.head? ≠ some FEND) :
    kissNextFrame ⟨FEND :: (g ++ FEND :: (List.replicate r FEND ++ rest2)), true⟩ =
      kissNextFrame ⟨FEND :: rest2, false⟩ := by
  unfold kissNextFrame
  rw [flushFirstFrame_frame g rest2 r hne hg hh, flushFirstFrame_clean]

lemma kbDrainF_noframe (fuel m : Nat) (g : List Nat) (hg : FEND ∉ g) :
    kbDrainF (fuel + 1) ⟨FEND :: (List.replicate m FEND ++ g), false⟩ =
      some ([], ⟨FEND :: g, false⟩) := by
  simp only [kbDrainF]
  rw [kissNextFrame_noframe m g hg]
  rfl

lemma kbDrainF_noframe0 (fuel : Nat) (g : List Nat) (hg : FEND ∉ g) :
    kbDrainF (fuel + 1) ⟨FEND :: g, false⟩ = some ([], ⟨FEND :: g, false⟩) := by
  have h := kbDrainF_noframe fuel 0 g hg
  simpa using h

lemma kbDrainF_step (fuel m r : Nat) (g1 g2 : List Nat) (h1 : g1 ≠ []) (h1f : FEND ∉ g1)
    (hh : g2.head? ≠ some FEND) :
    kbDrainF (fuel + 1 + 1)
        ⟨FEND :: (List.replicate m FEND ++ (g1 ++ FEND :: (List.replicate r FEND ++ g2))),
          false⟩ =
      (kbDrainF (fuel + 1) ⟨FEND :: g2, false⟩).map
        (fun pr => ((FEND :: (g1 ++ [FEND])) :: pr.1, pr.2)) := by
  have hcongr : kbDrainF (fuel + 1)
      ⟨FEND :: (g1 ++ FEND :: (List.replicate r FEND ++ g2)), true⟩ =
      kbDrainF (fuel + 1) ⟨FEND :: g2, false⟩ := by
    simp only [kbDrainF]
    rw [kissNextFrame_flush g1 g2 r h1 h1f hh]
  simp only [kbDrainF]
  rw [kissNextFrame_withframe m g1 (List.replicate r FEND ++ g2) h1 h1f]
  show (kbDrainF (fuel + 1)
      ⟨FEND :: (g1 ++ FEND :: (List.replicate r FEND ++ g2)), true⟩).map
      (fun pr => ((FEND :: (g1 ++ [FEND])) :: pr.1, pr.2)) = _
  rw [hcongr]
  simp only [kbDrainF]

lemma kbDrain_nil : kbDrain ⟨[], false⟩ = some ([], ⟨[], false⟩) := rfl

lemma kbDrain_noframe (m : Nat) (g : List Nat) (hg : FEND ∉ g) :
    kbDrain ⟨FEND :: (List.replicate m FEND ++ g), false⟩ =
      some ([], ⟨FEND :: g, false⟩) := by
  unfold kbDrain
  exact kbDrainF_noframe _ m g hg

lemma kbDrain_noframe0 (g : List Nat) (hg : FEND ∉ g) :
    kbDrain ⟨FEND :: g, false⟩ = some ([], ⟨FEND :: g, false⟩) := by
  unfold kbDrain
  exact kbDrainF_noframe0 _ g hg

lemma kbDrain_one (m r : Nat) (g1 g2 : List Nat) (h1 : g1 ≠ []) (h1f : FEND ∉ g1)
    (h2f : FEND ∉ g2) :
    kbDrain ⟨FEND :: (List.replicate m FEND ++
        (g1 ++ FEND :: (List.replicate r FEND ++ g2))), false⟩ =
      some ([FEND :: (g1 ++ [FEND])], ⟨FEND :: g2, false⟩) := by
  unfold kbDrain
  obtain ⟨n, hn⟩ : ∃ n,
      (⟨FEND :: (List.replicate m FEND ++
        (g1 ++ FEND :: (List.replicate r FEND ++ g2))), false⟩ : KissBuffer).buf.length + 1 =
        n + 1 + 1 :=
    ⟨(FEND :: (List.replicate m FEND ++
        (g1 ++ FEND :: (List.replicate r FEND ++ g2)))).length - 1, by simp⟩
  rw [hn, kbDrainF_step n m r g1 g2 h1 h1f (head_ne_fend g2 h2f),
    kbDrainF_noframe0 n g2 h2f]
  rfl

lemma kbDrain_two (m r : Nat) (g1 g2 : List Nat) (h1 : g1 ≠ []) (h1f : FEND ∉ g1)
    (h2 : g2 ≠ []) (h2f : FEND ∉ g2) :
    kbDrain ⟨FEND :: (List.replicate m FEND ++
        (g1 ++ FEND :: (List.replicate r FEND ++ (g2 ++ [FEND])))), false⟩ =
      some ([FEND :: (g1 ++ [FEND]), FEND :: (g2 ++ [FEND])], ⟨[FEND], false⟩) := by
  unfold kbDrain
  obtain ⟨n, hn⟩ : ∃ n,
      (⟨FEND :: (List.replicate m FEND ++
        (g1 ++ FEND :: (List.replicate r FEND ++ (g2 ++ [FEND])))),
        false⟩ : KissBuffer).buf.length + 1 = n + 1 + 1 + 1 :=
    ⟨(FEND :: (List.replicate m FEND ++
        (g1 ++ FEND :: (List.replicate r FEND ++ (g2 ++ [FEND]))))).length - 2, by simp; omega⟩
  rw [hn, kbDrainF_step (n + 1) m r g1 (g2 ++ [FEND]) h1 h1f
    (head_ne_fend_append g2 [FEND] h2 h2f)]
  have hstep2 := kbDrainF_step n 0 0 g2 [] h2 h2f (by simp)
  simp only [List.replicate_zero, List.nil_append, List.append_nil] at hstep2
  rw [hstep2, kbDrainF_noframe0 n [] (by simp)]
  rfl

/-! ### The C7 stream and its segment formulas -/

lemma kissStream_length (f1 f2 : List Nat) (kx : Nat) :
    (kissStream f1 f2 kx).length = 4 + f1.length + kx + f2.length := by
  simp [kissStream]
  omega

lemma kissStream_eq (f1 f2 : List Nat) (kx : Nat) :
    kissStream f1 f2 kx =
      FEND :: (f1 ++ FEND :: (List.replicate (kx + 1) FEND ++ (f2 ++ [FEND]))) := by
  unfold kissStream
  rw [List.replicate_succ]
  simp [List.cons_append, List.append_assoc]

lemma kissStream_take_A (f1 f2 : List Nat) (kx q : Nat) (hq1 : 1 ≤ q)
    (hq2 : q ≤ 1 + f1.length) :
    (kissStream f1 f2 kx).take q = FEND :: f1.take (q - 1) := by
  obtain ⟨j, rfl⟩ : ∃ j, q = j + 1 := ⟨q - 1, by omega⟩
  unfold kissStream
  rw [List.take_append_of_le_length (by simp; omega), List.take_succ_cons]
  simp

lemma kissStream_take_run (f1 f2 : List Nat) (kx q : Nat) (hq1 : 2 + f1.length ≤ q)
    (hq2 : q ≤ 3 + f1.length + kx) :
    (kissStream f1 f2 kx).take q =
      FEND :: (f1 ++ FEND :: List.replicate (q - (2 + f1.length)) FEND) := by
  unfold kissStream
  rw [List.take_append_eq_append_take, List.take_of_length_le (by simp; omega),
    List.take_append_eq_append_take, List.take_replicate]
  have hmin : min (q - (FEND :: f1).length) (kx + 2) = (q - (2 + f1.length)) + 1 := by
    simp
    omega
  have hz : q - (FEND :: f1).length - (List.replicate (kx + 2) FEND).length = 0 := by
    simp
    omega
  rw [hmin, hz, List.take_zero, List.append_nil, List.replicate_succ]
  simp [List.cons_append]

lemma kissStream_take_mid (f1 f2 : List Nat) (kx q : Nat) (hq1 : 3 + f1.length + kx < q)
    (hq2 : q ≤ 3 + f1.length + kx + f2.length) :
    (kissStream f1 f2 kx).take q =
      FEND :: (f1 ++ FEND :: (List.replicate (kx + 1) FEND ++
        f2.take (q - (3 + f1.length + kx)))) := by
  unfold kissStream
  rw [List.take_append_eq_append_take, List.take_of_length_le (by simp; omega),
    List.take_append_eq_append_take, List.take_replicate]
  have hmin : min (q - (FEND :: f1).length) (kx + 2) = kx + 2 := by
    simp
    omega
  have harith : q - (FEND :: f1).length - (List.replicate (kx + 2) FEND).length =
      q - (3 + f1.length + kx) := by
    simp
    omega
  rw [hmin, harith, List.take_append_of_le_length (by omega), List.replicate_succ]
  simp [List.cons_append, List.append_assoc]

lemma kissStream_drop_run (f1 f2 : List Nat) (kx p : Nat) (hp1 : 2 + f1.length ≤ p)
    (hp2 : p ≤ 3 + f1.length + kx) :
    (kissStream f1 f2 kx).drop p =
      List.replicate (3 + f1.length + kx - p) FEND ++ (f2 ++ [FEND]) := by
  unfold kissStream
  rw [List.drop_append_eq_append_drop, List.drop_eq_nil_of_le (by simp; omega),
    List.drop_append_eq_append_drop, List.drop_replicate]
  have h0 : p - (FEND :: f1).length - (List.replicate (kx + 2) FEND).length = 0 := by
    simp
    omega
  have h1 : kx + 2 - (p - (FEND :: f1).length) = 3 + f1.length + kx - p := by
    simp
    omega
  rw [h0, h1, List.drop_zero, List.nil_append]

lemma kissStream_drop_tail (f1 f2 : List Nat) (kx p : Nat) (hp1 : 3 + f1.length + kx ≤ p)
    (hp2 : p ≤ 3 + f1.length + kx + f2.length) :
    (kissStream f1 f2 kx).drop p = f2.drop (p - (3 + f1.length + kx)) ++ [FEND] := by
  unfold kissStream
  rw [List.drop_append_eq_append_drop, List.drop_eq_nil_of_le (by simp; omega),
    List.drop_append_eq_append_drop, List.drop_replicate]
  have h0 : kx + 2 - (p - (FEND :: f1).length) = 0 := by
    simp
    omega
  have h1 : p - (FEND :: f1).length - (List.replicate (kx + 2) FEND).length =
      p - (3 + f1.length + kx) := by
    simp
    omega
  rw [h0, h1, List.replicate_zero, List.nil_append, List.nil_append,
    List.drop_append_of_le_length (by omega)]

lemma c7Buf_length_le (f1 f2 : List Nat) (kx p : Nat) (h1l : f1.length ≤ 1711)
    (h2l : f2.length ≤ 1711) : (c7Buf f1 f2 kx p).length ≤ 1712 := by
  simp only [c7Buf]
  split_ifs with hc1 hc2 hc3
  · have := List.length_take_le p (kissStream f1 f2 kx)
    omega
  · simp
  · simp only [List.length_cons, List.length_take]
    omega
  · simp

/-! ### The drain step at every region crossing -/

lemma c7_drain (f1 f2 : List Nat) (kx p n : Nat) (h1 : f1 ≠ []) (h2 : f2 ≠ [])
    (h1f : FEND ∉ f1) (h2f : FEND ∉ f2)
    (hq : p + n ≤ 4 + f1.length + kx + f2.length) :
    kbDrain ⟨c7Buf f1 f2 kx p ++ ((kissStream f1 f2 kx).drop p).take n, false⟩ =
      some (c7New f1 f2 kx p (p + n), ⟨c7Buf f1 f2 kx (p + n), false⟩) := by
  have hA : 1 ≤ f1.length := List.length_pos.mpr h1
  have hB : 1 ≤ f2.length := List.length_pos.mpr h2
  by_cases hpA : p < 2 + f1.length
  · have hbufA : c7Buf f1 f2 kx p ++ ((kissStream f1 f2 kx).drop p).take n =
        (kissStream f1 f2 kx).take (p + n) := by
      simp only [c7Buf]
      rw [if_pos hpA, ← List.take_add]
    rw [hbufA]
    by_cases hqA : p + n < 2 + f1.length
    · by_cases hq0 : p + n = 0
      · rw [hq0, List.take_zero, kbDrain_nil]
        simp only [c7New, c7Buf]
        rw [if_neg (by omega), if_neg (by omega), if_pos (by omega), List.take_zero]
        simp
      · rw [kissStream_take_A f1 f2 kx (p + n) (by omega) (by omega)]
        have hfr : FEND ∉ f1.take (p + n - 1) := fun hm => h1f (List.take_subset _ _ hm)
        rw [kbDrain_noframe0 _ hfr]
        simp only [c7New, c7Buf]
        rw [if_neg (by omega), if_neg (by omega), if_pos hqA,
          kissStream_take_A f1 f2 kx (p + n) (by omega) (by omega)]
        simp
    · by_cases hqB : p + n ≤ 3 + f1.length + kx
      · rw [kissStream_take_run f1 f2 kx (p + n) (by omega) hqB]
        have hone := kbDrain_one 0 (p + n - (2 + f1.length)) f1 [] h1 h1f (by simp)
        simp only [List.replicate_zero, List.nil_append, List.append_nil] at hone
        rw [hone]
        simp only [c7New, c7Buf]
        rw [if_pos (by omega), if_neg (by omega), if_neg (by omega), if_pos hqB]
        simp
      · by_cases hqC : p + n < 4 + f1.length + kx + f2.length
        · rw [kissStream_take_mid f1 f2 kx (p + n) (by omega) (by omega)]
          have hfr2 : FEND ∉ f2.take (p + n - (3 + f1.length + kx)) :=
            fun hm => h2f (List.take_subset _ _ hm)
          have hone := kbDrain_one 0 (kx + 1) f1
            (f2.take (p + n - (3 + f1.length + kx))) h1 h1f hfr2
          simp only [List.replicate_zero, List.nil_append] at hone
          rw [hone]
          simp only [c7New, c7Buf]
          rw [if_pos (by omega), if_neg (by omega), if_neg (by omega), if_neg (by omega),
            if_pos hqC]
          simp
        · have hqL : p + n = 4 + f1.length + kx + f2.length := by omega
          rw [hqL, List.take_of_length_le (kissStream_length f1 f2 kx).le, kissStream_eq]
          have htwo := kbDrain_two 0 (kx + 1) f1 f2 h1 h1f h2 h2f
          simp only [List.replicate_zero, List.nil_append] at htwo
          rw [htwo]
          simp only [c7New, c7Buf]
          rw [if_pos (by omega), if_pos (by omega), if_neg (by omega), if_neg (by omega),
            if_neg (by omega)]
          simp
  · by_cases hpB : p ≤ 3 + f1.length + kx
    · have hbufB : c7Buf f1 f2 kx p = [FEND] := by
        simp only [c7Buf]
        rw [if_neg hpA, if_pos hpB]
      rw [hbufB, kissStream_drop_run f1 f2 kx p (by omega) hpB]
      by_cases hqB : p + n ≤ 3 + f1.length + kx
      · have htk : (List.replicate (3 + f1.length + kx - p) FEND ++ (f2 ++ [FEND])).take n =
            List.replicate n FEND := by
          rw [List.take_append_of_le_length (by simp; omega), List.take_replicate]
          congr 1
          omega
        rw [htk]
        have hpart := kbDrain_noframe n [] (by simp)
        simp only [List.append_nil] at hpart
        rw [List.singleton_append, hpart]
        simp only [c7New, c7Buf]
        rw [if_neg (by omega), if_neg (by omega), if_neg (by omega), if_pos (by omega)]
        simp
      · by_cases hqC : p + n < 4 + f1.length + kx + f2.length
        · have hidx : n - (List.replicate (3 + f1.length + kx - p) FEND).length =
              p + n - (3 + f1.length + kx) := by
            simp
            omega
          have htk : (List.replicate (3 + f1.length + kx - p) FEND ++ (f2 ++ [FEND])).take n =
              List.replicate (3 + f1.length + kx - p) FEND ++
                f2.take (p + n - (3 + f1.length + kx)) := by
            rw [List.take_append_eq_append_take, hidx,
              List.take_of_length_le (by simp; omega),
              List.take_append_of_le_length (by omega)]
          rw [htk]
          have hfr2 : FEND ∉ f2.take (p + n - (3 + f1.length + kx)) :=
            fun hm => h2f (List.take_subset _ _ hm)
          rw [List.singleton_append,
            kbDrain_noframe (3 + f1.length + kx - p) _ hfr2]
          simp only [c7New, c7Buf]
          rw [if_neg (by omega), if_neg (by omega), if_neg (by omega), if_neg (by omega),
            if_pos hqC]
          simp
        · have hqL : p + n = 4 + f1.length + kx + f2.length := by omega
          have htk : (List.replicate (3 + f1.length + kx - p) FEND ++ (f2 ++ [FEND])).take n =
              List.replicate (3 + f1.length + kx - p) FEND ++ (f2 ++ [FEND]) := by
            apply List.take_of_length_le
            simp
            omega
          rw [htk, List.singleton_append]
          have hone := kbDrain_one (3 + f1.length + kx - p) 0 f2 [] h2 h2f (by simp)
          simp only [List.replicate_zero, List.nil_append, List.append_nil] at hone
          rw [hone]
          simp only [c7New, c7Buf]
          rw [hqL, if_neg (by omega), if_pos (by omega), if_neg (by omega), if_neg (by omega),
            if_neg (by omega)]
          simp
    · by_cases hpC : p < 4 + f1.length + kx + f2.length
      · have hbufC : c7Buf f1 f2 kx p = FEND :: f2.take (p - (3 + f1.length + kx)) := by
          simp only [c7Buf]
          rw [if_neg hpA, if_neg hpB, if_pos hpC]
        rw [hbufC, kissStream_drop_tail f1 f2 kx p (by omega) (by omega)]
        by_cases hqC : p + n < 4 + f1.length + kx + f2.length
        · have htk : (f2.drop (p - (3 + f1.length + kx)) ++ [FEND]).take n =
              (f2.drop (p - (3 + f1.length + kx))).take n := by
            apply List.take_append_of_le_length
            simp
            omega
          rw [htk]
          have hasm : f2.take (p - (3 + f1.length + kx)) ++
              (f2.drop (p - (3 + f1.length + kx))).take n =
              f2.take (p + n - (3 + f1.length + kx)) := by
            rw [← List.take_add]
            congr 1
            omega
          rw [List.cons_append, hasm]
          have hfr2 : FEND ∉ f2.take (p + n - (3 + f1.length + kx)) :=
            fun hm => h2f (List.take_subset _ _ hm)
          rw [kbDrain_noframe0 _ hfr2]
          simp only [c7New, c7Buf]
          rw [if_neg (by omega), if_neg (by omega), if_neg (by omega), if_neg (by omega),
            if_pos hqC]
          simp
        · have hqL : p + n = 4 + f1.length + kx + f2.length := by omega
          have htk : (f2.drop (p - (3 + f1.length + kx)) ++ [FEND]).take n =
              f2.drop (p - (3 + f1.length + kx)) ++ [FEND] := by
            apply List.take_of_length_le
            simp
            omega
          rw [htk]
          have hasm : f2.take (p - (3 + f1.length + kx)) ++
              (f2.drop (p - (3 + f1.length + kx)) ++ [FEND]) = f2 ++ [FEND] := by
            rw [← List.append_assoc, List.take_append_drop]
          rw [List.cons_append, hasm]
          have hone := kbDrain_one 0 0 f2 [] h2 h2f (by simp)
          simp only [List.replicate_zero, List.nil_append, List.append_nil] at hone
          rw [hone]
          simp only [c7New, c7Buf]
          rw [hqL, if_neg (by omega), if_pos (by omega), if_neg (by omega), if_neg (by omega),
            if_neg (by omega)]
          simp
      · have hn0 : n = 0 := by omega
        have hbufD : c7Buf f1 f2 kx p = [FEND] := by
          simp only [c7Buf]
          rw [if_neg hpA, if_neg hpB, if_neg hpC]
        rw [hbufD, hn0, List.take_zero, List.append_nil, kbDrain_noframe0 [] (by simp)]
        simp only [c7New, c7Buf]
        rw [if_neg (by omega), if_neg (by omega), if_neg (by omega), if_neg (by omega),
          if_neg (by omega)]
        simp

lemma c7New_append_rem (f1 f2 : List Nat) (kx p q : Nat) (hpq : p ≤ q)
    (hqL : q ≤ 4 + f1.length + kx + f2.length) (hB : 1 ≤ f2.length) :
    c7New f1 f2 kx p q ++ c7Rem f1 f2 kx q = c7Rem f1 f2 kx p := by
  simp only [c7New, c7Rem]
  split_ifs <;> simp_all <;> omega

/-! ### The chunked run -/

lemma c7_run (f1 f2 : List Nat) (kx : Nat) (h1 : f1 ≠ []) (h2 : f2 ≠ [])
    (h1l : f1.length ≤ 1711) (h2l : f2.length ≤ 1711)
    (h1f : FEND ∉ f1) (h2f : FEND ∉ f2) (cs : List (List Nat)) :
    ∀ (p : Nat) (out : List (List Nat) × KissBuffer),
      p ≤ 4 + f1.length + kx + f2.length →
      cs.flatten = (kissStream f1 f2 kx).drop p →
      runChunks ⟨c7Buf f1 f2 kx p, false⟩ cs = some out →
      out = (c7Rem f1 f2 kx p, ⟨[FEND], false⟩) := by
  have hA : 1 ≤ f1.length := List.length_pos.mpr h1
  have hB : 1 ≤ f2.length := List.length_pos.mpr h2
  induction cs with
  | nil =>
    intro p out hp hflat hrun
    have hdrop : (kissStream f1 f2 kx).drop p = [] := by simpa using hflat.symm
    have hpL : p = 4 + f1.length + kx + f2.length := by
      have hlen := List.drop_eq_nil_iff.mp hdrop
      rw [kissStream_length] at hlen
      omega
    simp only [runChunks] at hrun
    have hrem : c7Rem f1 f2 kx p = [] := by
      simp only [c7Rem]
      rw [if_neg (by omega), if_neg (by omega)]
    have hbuf : c7Buf f1 f2 kx p = [FEND] := by
      simp only [c7Buf]
      rw [if_neg (by omega), if_neg (by omega), if_neg (by omega)]
    rw [hbuf] at hrun
    rw [hrem]
    simpa using hrun.symm
  | cons c cs ih =>
    intro p out hp hflat hrun
    rw [List.flatten_cons] at hflat
    have hc : c = ((kissStream f1 f2 kx).drop p).take c.length := by
      rw [← hflat, List.take_left]
    have hlen2 := congrArg List.length hflat
    simp only [List.length_append, List.length_drop, kissStream_length] at hlen2
    have hq : p + c.length ≤ 4 + f1.length + kx + f2.length := by omega
    have hflat2 : cs.flatten = (kissStream f1 f2 kx).drop (p + c.length) := by
      have hd := congrArg (List.drop c.length) hflat
      rw [List.drop_left, List.drop_drop] at hd
      exact hd
    have hne1713 : ¬ ((c7Buf f1 f2 kx p).length = 1713) := by
      have := c7Buf_length_le f1 f2 kx p h1l h2l
      omega
    simp only [runChunks] at hrun
    by_cases hfit : c.length ≤ 1713 - (c7Buf f1 f2 kx p).length
    · have hfeed : kbFeed ⟨c7Buf f1 f2 kx p, false⟩ c =
          some ⟨c7Buf f1 f2 kx p ++ c, false⟩ := by
        simp only [kbFeed, flushFirstFrame_clean]
        rw [if_neg hne1713, if_pos hfit]
      rw [hfeed] at hrun
      simp only [optSomeBind] at hrun
      have hdrain := c7_drain f1 f2 kx p c.length h1 h2 h1f h2f hq
      rw [← hc] at hdrain
      rw [hdrain] at hrun
      simp only [optSomeBind] at hrun
      cases hrec : runChunks ⟨c7Buf f1 f2 kx (p + c.length), false⟩ cs with
      | none =>
        rw [hrec] at hrun
        simp at hrun
      | some out2 =>
        rw [hrec] at hrun
        have hout2 := ih (p + c.length) out2 hq hflat2 hrec
        subst hout2
        simp only [optMapSome] at hrun
        have hinj := Option.some.inj hrun
        rw [← hinj, c7New_append_rem f1 f2 kx p (p + c.length) (by omega) hq hB]
    · have hfeed : kbFeed ⟨c7Buf f1 f2 kx p, false⟩ c = none := by
        simp only [kbFeed, flushFirstFrame_clean]
        rw [if_neg hne1713, if_neg hfit]
      rw [hfeed] at hrun
      simp at hrun

/-- Claim C7: for every pair of non-empty FEND-free frame bodies `f1`, `f2`
within the 1713-byte frame limit, any number `kx` of extra FENDs between the
frames, and every chunking of the byte stream `FEND f1 FEND FEND FEND^kx f2
FEND` that can be delivered through `buf_remaining`/`did_write`, the frames
returned by successive `next_frame` calls are exactly `FEND f1 FEND` then
`FEND f2 FEND`, and afterwards `next_frame` keeps returning no frame. -/
theorem c7_kiss_buffer_reassembly (f1 f2 : List Nat) (kx : Nat)
    (chunks : List (List Nat)) (out : List (List Nat) × KissBuffer)
    (h1 : f1 ≠ []) (h2 : f2 ≠ [])
    (h1l : f1.length ≤ 1711) (h2l : f2.length ≤ 1711)
    (h1f : FEND ∉ f1) (h2f : FEND ∉ f2)
    (hflat : chunks.flatten = kissStream f1 f2 kx)
    (hrun : runChunks KissBuffer.new chunks = some out) :
    out.1 = [FEND :: (f1 ++ [FEND]), FEND :: (f2 ++ [FEND])] ∧
      kissNextFrame out.2 = some (none, out.2) := by
  have hbuf0 : c7Buf f1 f2 kx 0 = [] := by
    simp only [c7Buf]
    rw [if_pos (by omega), List.take_zero]
  have h := c7_run f1 f2 kx h1 h2 h1l h2l h1f h2f chunks 0 out (by omega)
    (by simpa using hflat) (by rw [hbuf0]; exact hrun)
  have hrem0 : c7Rem f1 f2 kx 0 = [FEND :: (f1 ++ [FEND]), FEND :: (f2 ++ [FEND])] := by
    simp only [c7Rem]
    rw [if_pos (by omega)]
  constructor
  · rw [h, hrem0]
  · rw [h]
    rfl

/-- Witness for `c7_kiss_buffer_reassembly`: the stream
`FEND 1 FEND FEND FEND 2 FEND` delivered in five chunks (one of them empty)
yields exactly the two frames and ends in the idle `[FEND]` state. -/
theorem c7_kiss_buffer_reassembly_witness :
    runChunks KissBuffer.new [[192, 1, 192], [192], [], [192, 2], [192]] =
      some ([[192, 1, 192], [192, 2, 192]], ⟨[192], false⟩) ∧
    ([[192, 1, 192], [192, 2, 192]] : List (List Nat)) =
      [FEND :: ([1] ++ [FEND]), FEND :: ([2] ++ [FEND])] ∧
    kissNextFrame (⟨[192], false⟩ : KissBuffer) = some (none, ⟨[192], false⟩) :=
  ⟨by decide,
    (c7_kiss_buffer_reassembly [1] [2] 1 [[192, 1, 192], [192], [], [192, 2], [192]]
      ([[192, 1, 192], [192, 2, 192]], ⟨[192], false⟩) (by decide) (by decide) (by decide)
      (by decide) (by decide) (by decide) (by decide) (by decide)).1,
    (c7_kiss_buffer_reassembly [1] [2] 1 [[192, 1, 192], [192], [], [192, 2], [192]]
      ([[192, 1, 192], [192, 2, 192]], ⟨[192], false⟩) (by decide) (by decide) (by decide)
      (by decide) (by decide) (by decide) (by decide) (by decide)).2⟩

end M17
